import Mathlib

/-!
# Wayback → WordPress importer: a shallow embedding

This file embeds the stateful import pipeline of `wayback_importer.py`
(classes `Database`, `WaybackDiscovery`, `WaybackFetcher`,
`WordPressPublisher`, `LinkFixer`, `ImportPipeline`) together with the
statistics query of `run.py`, and proves properties of the embedding.

Modelling conventions:
* the SQLite store is a record of four row lists (`urls`, `articles`,
  `assets`, `logs`) mutated by pure functions;
* network effects are oracles passed as function arguments (one outcome
  per attempt for the fetcher, one response per request for the
  publisher);
* HTML bodies are a flat list of the node kinds the code inspects
  (anchors, images, opaque text); BeautifulSoup's parse/serialize round
  trip is the identity on this model;
* sleeps, timeouts and the semaphore are ignored: tasks of one fetch
  batch target pairwise distinct rows, so their interleaving is
  irrelevant to the store and the batch is folded sequentially.
-/

namespace Wayback

/-! ## Python string primitives -/

/-- Python `s.lstrip(cutset)`: drop leading characters that belong to the
cut set (NOT removal of a literal word). -/
def pyLstrip (cut : List Char) (l : List Char) : List Char :=
  l.dropWhile (fun c => cut.contains c)

/-- Python `s.rstrip(cutset)`: drop trailing characters that belong to the
cut set. -/
def pyRstrip (cut : List Char) (l : List Char) : List Char :=
  (l.reverse.dropWhile (fun c => cut.contains c)).reverse

/-- Helper for `collapseSlashes`: the boolean remembers whether the
previous character was a slash (further slashes of the same run are then
dropped). -/
def collapseSlashesAux : Bool → List Char → List Char
  | _, [] => []
  | prevSlash, c :: cs =>
    if c = '/' then
      if prevSlash then collapseSlashesAux true cs
      else '/' :: collapseSlashesAux true cs
    else c :: collapseSlashesAux false cs

/-- Python `re.sub(r'//+', '/', s)`: collapse every run of consecutive
slashes to a single slash. -/
def collapseSlashes (l : List Char) : List Char :=
  collapseSlashesAux false l

/-- Split a character list at the first occurrence of `sep`: the part
before it and, when the separator occurs, the part after it. -/
def splitAtFirst (sep : Char) : List Char → List Char × Option (List Char)
  | [] => ([], none)
  | c :: cs =>
    if c = sep then ([], some cs)
    else
      let r := splitAtFirst sep cs
      (c :: r.1, r.2)

/-- Python's `in` operator on strings: substring containment. -/
def containsSeq (hay pat : List Char) : Bool :=
  hay.tails.any (fun t => pat.isPrefixOf t)

/-- Characters allowed in a URL scheme by `urllib.parse`. -/
def scheme_char (c : Char) : Bool :=
  c.isAlphanum || c = '+' || c = '-' || c = '.'

/-- The scheme-stripping step of `urllib.parse.urlparse`: when the text
before the first colon is a nonempty valid scheme, drop it together with
the colon; otherwise leave the URL unchanged. -/
def stripScheme (l : List Char) : List Char :=
  match splitAtFirst ':' l with
  | (before, some after) =>
    if before ≠ [] ∧ (before.headD ' ').isAlpha ∧ before.all scheme_char then after
    else l
  | (_, none) => l

/-- The `netloc` and `path` fields of `urllib.parse.urlparse`, the only
fields `normalize_url` reads.  A leading `scheme:` is stripped; a netloc
follows a leading `//` (`url[:2] == '//'`) and runs to the next `/`, `?`
or `#`; the path then runs to the next `?` or `#` (query and fragment are
discarded). -/
def urlsplit_netloc_path (l : List Char) : List Char × List Char :=
  let rest := stripScheme l
  let netlocRest :=
    if rest.take 2 = ['/', '/'] then
      ((rest.drop 2).takeWhile (fun c => ¬(c = '/' ∨ c = '?' ∨ c = '#')),
       (rest.drop 2).dropWhile (fun c => ¬(c = '/' ∨ c = '?' ∨ c = '#')))
    else ([], rest)
  (netlocRest.1, netlocRest.2.takeWhile (fun c => ¬(c = '?' ∨ c = '#')))

/-- `normalize_url` from `wayback_importer.py`:
`host = pu.netloc.lower().lstrip('www.')` and
`path = re.sub(r'//+', '/', pu.path.rstrip('/'))`. -/
def normalize_url (s : String) : String × String :=
  let np := urlsplit_netloc_path s.data
  (⟨pyLstrip ['w', '.'] (np.1.map Char.toLower)⟩,
   ⟨collapseSlashes (pyRstrip ['/'] np.2)⟩)

/-! ## The store (`Database`) -/

/-- One row of the `urls` table. -/
structure UrlRow where
  id : Nat
  original_url : String
  snapshot_url : String
  timestamp : String
  status : String
  retries : Nat
deriving Repr, DecidableEq

/-- One node of an HTML body: the pipeline only ever inspects anchors
(`href`) and images (`src`, `alt`); everything else is opaque text. -/
inductive Node where
  | a (href : String) : Node
  | img (src : String) (alt : String) : Node
  | text (s : String) : Node
deriving Repr, DecidableEq

/-- An HTML body as BeautifulSoup exposes it to this code. -/
abbrev Doc := List Node

/-- One row of the `articles` table (`content` holds the parsed body). -/
structure ArticleRow where
  id : Nat
  url_id : Nat
  title : String
  content : Doc
  excerpt : String
  pub_date : String
  category : String
  tags : String
  wp_post_id : Option Nat
  wp_permalink : Option String
  status : String
deriving Repr, DecidableEq

/-- One row of the `assets` table. -/
structure AssetRow where
  id : Nat
  article_id : Nat
  original_url : String
  wp_media_id : Option Nat
  wp_url : Option String
  uploaded : Bool
  alt_text : String
deriving Repr, DecidableEq

/-- One row of the append-only `logs` table. -/
structure LogRow where
  level : String
  message : String
deriving Repr, DecidableEq

/-- The SQLite store. -/
structure Database where
  urls : List UrlRow
  articles : List ArticleRow
  assets : List AssetRow
  logs : List LogRow
deriving Repr, DecidableEq

/-- SQLite `INTEGER PRIMARY KEY` auto-assignment: one more than the
largest existing id. -/
def nextId (ids : List Nat) : Nat :=
  ids.foldr (fun a b => max a b) 0 + 1

/-- `Database.log`: append one row to `logs`. -/
def Database.log (db : Database) (level message : String) : Database :=
  { db with logs := db.logs ++ [{ level := level, message := message }] }

/-- `Database.add_url`: INSERT a fresh pending row; the UNIQUE constraint
violation on `original_url` is caught (`sqlite3.IntegrityError`) and
silently ignored, leaving the store unchanged. -/
def add_url (db : Database) (original snapshot ts : String) : Database :=
  if db.urls.any (fun r => r.original_url == original) then db
  else
    { db with
      urls := db.urls ++
        [{ id := nextId (db.urls.map (·.id)), original_url := original,
           snapshot_url := snapshot, timestamp := ts,
           status := "pending", retries := 0 }] }

/-- `Database.get_pending_urls`: rows with `status = 'pending' AND
retries < 5` (the literal 5), in table order, capped at `limit`,
projected to `(id, original_url, snapshot_url)`. -/
def get_pending_urls (db : Database) (limit : Nat) :
    List (Nat × String × String) :=
  ((db.urls.filter
      (fun r => r.status == "pending" && decide (r.retries < 5))).take limit).map
    (fun r => (r.id, r.original_url, r.snapshot_url))

/-- `Database.bump_retry`: `UPDATE urls SET retries = retries + 1 WHERE id = ?`. -/
def bump_retry (db : Database) (url_id : Nat) : Database :=
  { db with
    urls := db.urls.map
      (fun r => if r.id = url_id then { r with retries := r.retries + 1 } else r) }

/-- `Database.update_url_status`: `UPDATE urls SET status = ? WHERE id = ?`. -/
def update_url_status (db : Database) (url_id : Nat) (status : String) : Database :=
  { db with
    urls := db.urls.map
      (fun r => if r.id = url_id then { r with status := status } else r) }

/-- `Database.save_article`: INSERT one article (wp fields NULL, status
default 'draft'); returns the new row id. -/
def save_article (db : Database) (url_id : Nat) (title : String) (content : Doc)
    (excerpt pub_date category tags : String) : Database × Nat :=
  let aid := nextId (db.articles.map (·.id))
  ({ db with
     articles := db.articles ++
       [{ id := aid, url_id := url_id, title := title, content := content,
          excerpt := excerpt, pub_date := pub_date, category := category,
          tags := tags, wp_post_id := none, wp_permalink := none,
          status := "draft" }] }, aid)

/-- The asset INSERT issued by `ContentProcessor.process_page` for each
discovered image. -/
def insert_asset (db : Database) (article_id : Nat) (url alt : String) : Database :=
  { db with
    assets := db.assets ++
      [{ id := nextId (db.assets.map (·.id)), article_id := article_id,
         original_url := url, wp_media_id := none, wp_url := none,
         uploaded := false, alt_text := alt }] }

/-- Python dict lookup for an assoc list built by repeated insertion: the
last binding of a key wins. -/
def dictFind {α β : Type} [BEq α] (m : List (α × β)) (k : α) : Option β :=
  (m.reverse.find? (fun p => p.1 == k)).map (·.2)

/-- `Database.get_url_mapping`: the join of `urls` and `articles` on
`u.id = a.url_id` restricted to rows with a permalink, materialised as a
Python dict `{original_url: wp_permalink}`; the join is urls-major. -/
def get_url_mapping (db : Database) : List (String × String) :=
  (db.urls.map (fun u =>
    (db.articles.filter
        (fun a => a.url_id == u.id && a.wp_permalink.isSome)).map
      (fun a => (u.original_url, a.wp_permalink.getD "")))).flatten

/-! ## Discovery (`WaybackDiscovery.discover_urls`) -/

/-- One parsed row of the CDX JSON response, after `dict(zip(headers, row))`. -/
structure CdxItem where
  original : String
  timestamp : String
deriving Repr, DecidableEq

/-- The path-exclusion patterns of `discover_urls`. -/
def exclusionPats : List String :=
  ["/wp-admin/", "/feed/", "/tag/", "/author/", ".xml", ".json"]

/-- `any(x in low for x in [...])` on the lower-cased URL. -/
def excluded (url : String) : Bool :=
  exclusionPats.any (fun pat => containsSeq (url.data.map Char.toLower) pat.data)

/-- The body of the discovery loop: rows surviving the path-exclusion
filter are passed to `add_url` and counted, whether or not the INSERT
actually added a row. -/
def discover_step (acc : Database × Nat) (item : CdxItem) : Database × Nat :=
  if excluded item.original then acc
  else
    (add_url acc.1 item.original
      ("https://web.archive.org/web/" ++ item.timestamp ++ "id_/" ++ item.original)
      item.timestamp,
     acc.2 + 1)

/-- `WaybackDiscovery.discover_urls` after a successful (HTTP 200) CDX
response already parsed into `rows`. -/
def discover_urls (db : Database) (domain : String) (rows : List CdxItem) :
    Database × Nat :=
  let r := rows.foldl discover_step (db, 0)
  (r.1.log "info" ("Discovered " ++ toString r.2 ++ " URLs from " ++ domain), r.2)

/-! ## Fetcher (`WaybackFetcher.fetch_page`) -/

/-- Outcome of one fetch attempt: an HTTP response (status code and body)
or a raised transport exception. -/
inductive FetchOutcome where
  | resp (status : Nat) (body : String)
  | exn (msg : String)
deriving Repr, DecidableEq

/-- `resp.status in (429, 500, 502, 503, 504)`. -/
def retriable (status : Nat) : Bool :=
  status == 429 || status == 500 || status == 502 || status == 503 || status == 504

/-- The retry loop of `WaybackFetcher.fetch_page` over the remaining
attempt numbers; `oracle n` is the outcome of attempt `n`.  Transient
statuses back off and continue without touching the store; other non-200
statuses bump the retry counter and mark the row failed when this is the
last attempt (`attempt = max_retries`); 200 marks it fetched and returns
the body; exceptions log, bump the counter and continue.  Sleeps are
ignored. -/
def fetch_page_loop (oracle : Nat → FetchOutcome) (max_retries url_id : Nat) :
    Database → List Nat → Database × Option String
  | db, [] => (db, none)
  | db, attempt :: rest =>
    match oracle attempt with
    | .resp status body =>
      if retriable status then
        fetch_page_loop oracle max_retries url_id db rest
      else if status ≠ 200 then
        let db1 := bump_retry db url_id
        let db2 := if attempt = max_retries
          then update_url_status db1 url_id "failed" else db1
        fetch_page_loop oracle max_retries url_id db2 rest
      else
        (update_url_status db url_id "fetched", some body)
    | .exn _ =>
      fetch_page_loop oracle max_retries url_id
        (bump_retry (db.log "error" ("Fetch failed for URL " ++ toString url_id))
          url_id)
        rest

/-- `WaybackFetcher.fetch_page`: `for attempt in range(1, max_retries + 1)`;
returns the updated store and the fetched body (`none` once the attempt
budget is exhausted). -/
def fetch_page (oracle : Nat → FetchOutcome) (max_retries : Nat)
    (db : Database) (url_id : Nat) : Database × Option String :=
  fetch_page_loop oracle max_retries url_id db (List.range' 1 max_retries)

/-! ## Publisher (`WordPressPublisher`) -/

/-- What a successful `upload_image` returns: the media id and URL from
WordPress's 201 response. -/
structure Media where
  id : Nat
  url : String
deriving Repr, DecidableEq

/-- The JSON payload `publish_article` sends to the posts endpoint. -/
structure PostData where
  title : String
  content : Doc
  excerpt : String
  status : String
  date_gmt : String
  categories : List Nat
  slug : String
  featured_media : Option Nat
deriving Repr, DecidableEq

/-- Python whitespace stripped by `str.strip()`. -/
def pySpace : List Char :=
  [' ', '\t', '\n', '\x0d', '\x0b', '\x0c']

/-- Python `str.strip(cutset)`. -/
def pyStrip (cut : List Char) (l : List Char) : List Char :=
  pyRstrip cut (pyLstrip cut l)

/-- Characters kept by the fallback `slugify` ([a-zA-Z0-9-]). -/
def slug_char (c : Char) : Bool :=
  c.isAlphanum || c = '-'

/-- Helper for `subRunsToDash`: the boolean remembers whether the dash
for the current run of non-slug characters was already emitted. -/
def subRunsToDashAux : Bool → List Char → List Char
  | _, [] => []
  | inRun, c :: cs =>
    if slug_char c then c :: subRunsToDashAux false cs
    else if inRun then subRunsToDashAux true cs
    else '-' :: subRunsToDashAux true cs

/-- `re.sub(r'[^a-zA-Z0-9\-]+', '-', s)`: each run of characters outside
the slug alphabet becomes a single dash. -/
def subRunsToDash (l : List Char) : List Char :=
  subRunsToDashAux false l

/-- The repository's fallback `slugify`. -/
def slugify (s : String) : String :=
  ⟨pyStrip ['-'] (subRunsToDash ((pyStrip pySpace s.data).map Char.toLower))⟩

/-- The image-reference rewrite inside `publish_article`'s asset loop:
every `img` whose nonempty `src` contains `img_url` as a substring gets
`src := murl` and, when `alt_text` is nonempty, `alt := alt_text`. -/
def replaceImg (img_url murl alt_text : String) (doc : Doc) : Doc :=
  doc.map fun n =>
    match n with
    | .img src alt =>
      if src ≠ "" ∧ containsSeq src.data img_url.data then
        .img murl (if alt_text ≠ "" then alt_text else alt)
      else .img src alt
    | other => other

/-- The publisher's network: `upload img_url alt_text` is what
`upload_image` returns (`none` for a failed download, a non-201 upload
response or a raised exception), `create payload` is the posts endpoint's
201 payload `(post id, link)` or `none` for any other status.  The
exception path of `upload_image` also appends a log row; no property here
observes the log, so the oracle does not distinguish it. -/
structure PublishNet where
  upload : String → String → Option Media
  create : PostData → Option (Nat × String)

/-- The body of `publish_article`'s asset loop: a successful upload
persists the media id/URL, flips `uploaded`, rewrites matching image
references in the working body and becomes the featured media if none was
chosen yet; a failed upload leaves the accumulator unchanged. -/
def asset_step (net : PublishNet) (acc : Database × Doc × Option Nat)
    (asset : AssetRow) : Database × Doc × Option Nat :=
  match net.upload asset.original_url asset.alt_text with
  | some m =>
    ({ acc.1 with
       assets := acc.1.assets.map (fun a =>
         if a.id = asset.id then
           { a with wp_media_id := some m.id, wp_url := some m.url,
                    uploaded := true }
         else a) },
     replaceImg asset.original_url m.url asset.alt_text acc.2.1,
     acc.2.2 <|> some m.id)
  | none => acc

/-- `WordPressPublisher.publish_article` for category id `cat`.  Returns
the store, the boolean result, and the payload sent to the posts endpoint
(`none` when the article row does not exist and no request was sent).
Asset rows are committed before the create call is issued. -/
def publish_article (net : PublishNet) (cat : Nat) (db : Database)
    (article_id : Nat) : Database × Bool × Option PostData :=
  match db.articles.find? (fun a => a.id == article_id) with
  | none => (db, false, none)
  | some art =>
    let assets := db.assets.filter
      (fun a => a.article_id == article_id && a.uploaded == false)
    let folded := assets.foldl (asset_step net) (db, art.content, none)
    let db1 := folded.1
    let original_url :=
      ((db1.urls.find? (fun u => u.id == art.url_id)).map (·.original_url)).getD ""
    let pathStr : String := ⟨pyRstrip ['/'] (urlsplit_netloc_path original_url.data).2⟩
    let lastSeg := (pathStr.splitOn "/").getLastD ""
    let post_data : PostData :=
      { title := art.title, content := folded.2.1, excerpt := art.excerpt,
        status := "draft", date_gmt := art.pub_date, categories := [cat],
        slug := slugify (if lastSeg ≠ "" then lastSeg else "index"),
        featured_media := folded.2.2 }
    match net.create post_data with
    | some pl =>
      ({ db1 with
         articles := db1.articles.map (fun a =>
           if a.id = article_id then
             { a with wp_post_id := some pl.1, wp_permalink := some pl.2,
                      status := "published" }
           else a) }, true, some post_data)
    | none =>
      (db1.log "error" ("Failed to publish article " ++ toString article_id),
       false, some post_data)

/-! ## Link fixer (`LinkFixer.fix_internal_links`) -/

/-- The normalized lookup built from `get_url_mapping`:
`norm_map[normalize_url(old_url)] = new_permalink` (insertion order kept,
later bindings win via `dictFind`). -/
def norm_map (url_map : List (String × String)) :
    List ((String × String) × String) :=
  url_map.map (fun p => (normalize_url p.1, p.2))

/-- The per-anchor rewrite: normalize the href, and when the key is bound
in the map to a different target, rewrite; the boolean reports whether the
node changed. -/
def rewriteNode (nm : List ((String × String) × String)) (n : Node) :
    Node × Bool :=
  match n with
  | .a href =>
    match dictFind nm (normalize_url href) with
    | some target => if href ≠ target then (.a target, true) else (.a href, false)
    | none => (.a href, false)
  | other => (other, false)

/-- The whole-body rewrite; the boolean is `updated` (some anchor changed). -/
def rewriteDoc (nm : List ((String × String) × String)) (doc : Doc) :
    Doc × Bool :=
  doc.foldr (fun n acc =>
    let r := rewriteNode nm n
    (r.1 :: acc.1, r.2 || acc.2)) ([], false)

/-- The body of the link-fix loop for one cursor row `art` (taken from
the materialised cursor, not from the evolving store): rewrite the body;
when something changed, push it to the remote post, and only a 200
response persists the body locally and counts the record. -/
def fix_step (remoteOk : Nat → Doc → Bool)
    (nm : List ((String × String) × String)) (acc : Database × Nat)
    (art : ArticleRow) : Database × Nat :=
  let r := rewriteDoc nm art.content
  if r.2 then
    if remoteOk (art.wp_post_id.getD 0) r.1 then
      ({ acc.1 with
         articles := acc.1.articles.map (fun a =>
           if a.id = art.id then { a with content := r.1 } else a) },
       acc.2 + 1)
    else acc
  else acc

/-- `LinkFixer.fix_internal_links`.  `remoteOk pid body` tells whether the
WP post-update request for post `pid` with the rewritten body returned
HTTP 200.  The article cursor is materialised before the loop. -/
def fix_internal_links (remoteOk : Nat → Doc → Bool) (db : Database) :
    Database × Nat :=
  let nm := norm_map (get_url_mapping db)
  (db.articles.filter (fun a => a.wp_post_id.isSome)).foldl
    (fix_step remoteOk nm) (db, 0)

/-! ## Pipeline phases (`ImportPipeline`) and the step relation -/

/-- What the (external) content extractor hands back for one page. -/
structure Extracted where
  title : String
  content : Doc
  excerpt : String
  pub_date : String
  category : String
  tags : String
  images : List (String × String)
deriving Repr, DecidableEq

/-- `ContentProcessor.process_page` with the extraction supplied by an
oracle: save the article row, then insert one asset row per image. -/
def process_page (db : Database) (url_id : Nat) (ex : Extracted) :
    Database × Nat :=
  let r := save_article db url_id ex.title ex.content ex.excerpt ex.pub_date
      ex.category ex.tags
  (ex.images.foldl (fun d img => insert_asset d r.2 img.1 img.2) r.1, r.2)

/-- `ImportPipeline.run_fetching`: query one batch of pending rows, fetch
each with `max_retries = 5` (the batch's tasks target pairwise distinct
rows, so the gather is folded sequentially), then process every
successful fetch.  `oracles uid n` is attempt `n`'s outcome for row
`uid`; `extract uid html` the extraction result. -/
def run_fetching (oracles : Nat → Nat → FetchOutcome)
    (extract : Nat → String → Extracted) (batch_size : Nat)
    (db : Database) : Database :=
  let pending := get_pending_urls db batch_size
  let fetched := pending.foldl
    (fun (acc : Database × List (Nat × Option String)) item =>
      let r := fetch_page (oracles item.1) 5 acc.1 item.1
      (r.1, acc.2 ++ [(item.1, r.2)]))
    (db, [])
  fetched.2.foldl
    (fun d item =>
      match item.2 with
      | some html => (process_page d item.1 (extract item.1 html)).1
      | none => d)
    fetched.1

/-- The candidate query of `ImportPipeline.run_publishing`:
`SELECT id FROM articles WHERE wp_post_id IS NULL LIMIT ?`. -/
def publish_candidates (db : Database) (batch_size : Nat) : List Nat :=
  ((db.articles.filter (fun a => a.wp_post_id.isNone)).take batch_size).map (·.id)

/-- `ImportPipeline.run_publishing`: publish every candidate in order. -/
def run_publishing (net : PublishNet) (cat batch_size : Nat)
    (db : Database) : Database :=
  (publish_candidates db batch_size).foldl
    (fun d aid => (publish_article net cat d aid).1) db

/-- One invocation of a pipeline phase (`ImportPipeline.run_*`); network
responses and extraction results are parameters, so the relation covers
every behaviour of the environment. -/
inductive PStep : Database → Database → Prop where
  | discovery (domain : String) (rows : List CdxItem) (db : Database) :
      PStep db (discover_urls db domain rows).1
  | fetching (oracles : Nat → Nat → FetchOutcome)
      (extract : Nat → String → Extracted) (batch_size : Nat) (db : Database) :
      PStep db (run_fetching oracles extract batch_size db)
  | publishing (net : PublishNet) (cat batch_size : Nat) (db : Database) :
      PStep db (run_publishing net cat batch_size db)
  | linkfixing (remoteOk : Nat → Doc → Bool) (db : Database) :
      PStep db (fix_internal_links remoteOk db).1

/-- Any finite sequence of pipeline phase invocations. -/
def PSteps : Database → Database → Prop :=
  Relation.ReflTransGen PStep

/-- The per-status URL count of `show_statistics` (run.py):
`SELECT status, COUNT(*) FROM urls GROUP BY status`, read off for one
status value (the grouping looks only at `status`). -/
def urls_status_count (db : Database) (status : String) : Nat :=
  (db.urls.filter (fun r => r.status == status)).length

/-- Look up the url row with the given id (unique under `Inv`). -/
def findUrl (db : Database) (uid : Nat) : Option UrlRow :=
  db.urls.find? (fun r => r.id == uid)

/-- Look up the article row with the given id (unique under `Inv`). -/
def findArticle (db : Database) (aid : Nat) : Option ArticleRow :=
  db.articles.find? (fun a => a.id == aid)

/-! ## Well-formedness and evolution invariants -/

/-- Uniqueness invariants of the store: row ids are unique in `urls` and
`articles` (INTEGER PRIMARY KEY), and `original_url` is unique in `urls`
(the UNIQUE constraint). -/
structure Inv (db : Database) : Prop where
  urls_id_nodup : (db.urls.map (·.id)).Nodup
  articles_id_nodup : (db.articles.map (·.id)).Nodup
  originals_nodup : (db.urls.map (·.original_url)).Nodup

/-- How one url row may evolve under the pipeline: identity fields are
frozen, the retry counter never decreases, and the status either stays or
moves from `pending` to `fetched`/`failed`. -/
def UrlRowEvol (r r' : UrlRow) : Prop :=
  r'.id = r.id ∧ r'.original_url = r.original_url ∧
  r'.snapshot_url = r.snapshot_url ∧ r'.timestamp = r.timestamp ∧
  r.retries ≤ r'.retries ∧
  (r'.status = r.status ∨
    (r.status = "pending" ∧ (r'.status = "fetched" ∨ r'.status = "failed")))

/-- How one article row may evolve: the id and owning url never change,
and a set remote post id is never cleared or changed. -/
def ArticleEvol (a a' : ArticleRow) : Prop :=
  a'.id = a.id ∧ a'.url_id = a.url_id ∧
  (∀ p, a.wp_post_id = some p → a'.wp_post_id = some p)

/-- Rows evolve pointwise and in place; new rows are appended at the end
(rows are never deleted). -/
def ListMono {α : Type} (R : α → α → Prop) (l l' : List α) : Prop :=
  ∃ old new, l' = old ++ new ∧ List.Forall₂ R l old

/-- Url-table evolution between two stores. -/
def UrlsMono (db db' : Database) : Prop :=
  ListMono UrlRowEvol db.urls db'.urls

/-- Article-table evolution between two stores. -/
def ArticlesMono (db db' : Database) : Prop :=
  ListMono ArticleEvol db.articles db'.articles

lemma urlRowEvol_refl (r : UrlRow) : UrlRowEvol r r :=
  ⟨rfl, rfl, rfl, rfl, le_refl _, Or.inl rfl⟩

lemma urlRowEvol_trans (a b c : UrlRow) (h1 : UrlRowEvol a b)
    (h2 : UrlRowEvol b c) : UrlRowEvol a c := by
  obtain ⟨i1, o1, s1, t1, r1, st1⟩ := h1
  obtain ⟨i2, o2, s2, t2, r2, st2⟩ := h2
  refine ⟨i2.trans i1, o2.trans o1, s2.trans s1, t2.trans t1, le_trans r1 r2, ?_⟩
  rcases st1 with h | ⟨hp, hf⟩
  · rcases st2 with h' | ⟨hp', hf'⟩
    · exact Or.inl (h'.trans h)
    · exact Or.inr ⟨by rw [← h, hp'], hf'⟩
  · rcases st2 with h' | ⟨hp', hf'⟩
    · exact Or.inr ⟨hp, by rw [h']; exact hf⟩
    · rcases hf with hb | hb <;> rw [hb] at hp' <;> exact absurd hp' (by decide)

lemma articleEvol_refl (a : ArticleRow) : ArticleEvol a a :=
  ⟨rfl, rfl, fun _ h => h⟩

lemma articleEvol_trans (a b c : ArticleRow) (h1 : ArticleEvol a b)
    (h2 : ArticleEvol b c) : ArticleEvol a c :=
  ⟨h2.1.trans h1.1, h2.2.1.trans h1.2.1, fun p hp => h2.2.2 p (h1.2.2 p hp)⟩

lemma forall₂_trans_of {α : Type} {R : α → α → Prop}
    (hR : ∀ a b c, R a b → R b c → R a c) :
    ∀ {l m n : List α}, List.Forall₂ R l m → List.Forall₂ R m n →
      List.Forall₂ R l n := by
  intro l m n h1 h2
  induction h1 generalizing n with
  | nil => cases h2; exact List.Forall₂.nil
  | cons hab _ ih =>
    cases h2 with
    | cons hbc h' => exact List.Forall₂.cons (hR _ _ _ hab hbc) (ih h')

lemma forall₂_append_split {α β : Type} {R : α → β → Prop} :
    ∀ {l1 l2 : List α} {m : List β}, List.Forall₂ R (l1 ++ l2) m →
      ∃ m1 m2, m = m1 ++ m2 ∧ List.Forall₂ R l1 m1 ∧ List.Forall₂ R l2 m2 := by
  intro l1
  induction l1 with
  | nil => exact fun h => ⟨[], _, rfl, List.Forall₂.nil, h⟩
  | cons a t ih =>
    intro l2 m h
    cases h with
    | cons hab h' =>
      obtain ⟨m1, m2, rfl, h1, h2⟩ := ih h'
      exact ⟨_ :: m1, m2, rfl, List.Forall₂.cons hab h1, h2⟩

lemma forall₂_mem_extract {α β : Type} {R : α → β → Prop} :
    ∀ {l : List α} {m : List β}, List.Forall₂ R l m → ∀ a ∈ l, ∃ b ∈ m, R a b := by
  intro l m h
  induction h with
  | nil => intro a ha; cases ha
  | cons hab _ ih =>
    intro x hx
    rcases List.mem_cons.1 hx with rfl | hx'
    · exact ⟨_, List.mem_cons_self _ _, hab⟩
    · obtain ⟨b, hb, hr⟩ := ih x hx'
      exact ⟨b, List.mem_cons_of_mem _ hb, hr⟩

lemma listMono_refl {α : Type} {R : α → α → Prop} (hR : ∀ a, R a a)
    (l : List α) : ListMono R l l :=
  ⟨l, [], (List.append_nil l).symm, List.forall₂_same.2 (fun x _ => hR x)⟩

lemma listMono_trans {α : Type} {R : α → α → Prop}
    (hR : ∀ a b c : α, R a b → R b c → R a c) {l1 l2 l3 : List α}
    (m1 : ListMono R l1 l2) (m2 : ListMono R l2 l3) : ListMono R l1 l3 := by
  obtain ⟨o1, n1, rfl, f1⟩ := m1
  obtain ⟨o2, n2, h3, f2⟩ := m2
  obtain ⟨m1, m2, rfl, g1, _⟩ := forall₂_append_split f2
  exact ⟨m1, m2 ++ n2, by rw [h3, List.append_assoc], forall₂_trans_of hR f1 g1⟩

lemma listMono_map {α : Type} {R : α → α → Prop} (l : List α) (g : α → α)
    (hg : ∀ a ∈ l, R a (g a)) : ListMono R l (l.map g) :=
  ⟨l.map g, [], (List.append_nil _).symm,
    List.forall₂_map_right_iff.2 (List.forall₂_same.2 hg)⟩

lemma listMono_append {α : Type} {R : α → α → Prop} (hR : ∀ a, R a a)
    (l new : List α) : ListMono R l (l ++ new) :=
  ⟨l, new, rfl, List.forall₂_same.2 (fun x _ => hR x)⟩

/-! ## Shape lemmas for the store primitives -/

lemma le_foldr_max (ids : List Nat) :
    ∀ x ∈ ids, x ≤ ids.foldr (fun a b => max a b) 0 := by
  induction ids with
  | nil => intro x hx; cases hx
  | cons a t ih =>
    intro x hx
    rcases List.mem_cons.1 hx with rfl | hx'
    · exact le_max_left _ _
    · exact le_trans (ih x hx') (le_max_right _ _)

lemma nextId_not_mem (ids : List Nat) : nextId ids ∉ ids := by
  intro h
  have := le_foldr_max ids _ h
  simp only [nextId] at this
  omega

/-- The row `add_url` inserts when `original_url` is new. -/
def newUrlRow (db : Database) (o s t : String) : UrlRow :=
  { id := nextId (db.urls.map (·.id)), original_url := o, snapshot_url := s,
    timestamp := t, status := "pending", retries := 0 }

lemma add_url_of_mem {db : Database} {o : String} (s t : String)
    (h : ∃ r ∈ db.urls, r.original_url = o) : add_url db o s t = db := by
  unfold add_url
  rw [if_pos]
  obtain ⟨r, hr, hro⟩ := h
  exact List.any_eq_true.2 ⟨r, hr, beq_iff_eq.2 hro⟩

lemma add_url_of_not_mem {db : Database} {o : String} (s t : String)
    (h : ∀ r ∈ db.urls, r.original_url ≠ o) :
    add_url db o s t = { db with urls := db.urls ++ [newUrlRow db o s t] } := by
  unfold add_url
  rw [if_neg]
  · rfl
  · intro hc
    obtain ⟨r, hr, hro⟩ := List.any_eq_true.1 hc
    exact h r hr (beq_iff_eq.1 hro)

lemma find?_map_eq {α : Type} (l : List α) (g : α → α) (p : α → Bool)
    (hg : ∀ r, p (g r) = p r) :
    (l.map g).find? p = (l.find? p).map g := by
  have hpg : (p ∘ g) = p := funext hg
  rw [List.find?_map, hpg]

/-- The pointwise url update performed by `bump_retry`. -/
def bumpG (uid : Nat) : UrlRow → UrlRow :=
  fun r => if r.id = uid then { r with retries := r.retries + 1 } else r

/-- The pointwise url update performed by `update_url_status`. -/
def statusG (uid : Nat) (s : String) : UrlRow → UrlRow :=
  fun r => if r.id = uid then { r with status := s } else r

lemma bump_retry_urls (db : Database) (uid : Nat) :
    (bump_retry db uid).urls = db.urls.map (bumpG uid) := rfl

lemma update_url_status_urls (db : Database) (uid : Nat) (s : String) :
    (update_url_status db uid s).urls = db.urls.map (statusG uid s) := rfl

lemma log_urls (db : Database) (l m : String) : (db.log l m).urls = db.urls := rfl

/-- The per-row effect any run of the fetch loop can have on the row with
the target id: identity off-target; on the target, identity fields frozen,
retries never lowered, status unchanged or set to fetched/failed. -/
def FetchRowG (uid : Nat) (g : UrlRow → UrlRow) : Prop :=
  (∀ r, r.id ≠ uid → g r = r) ∧
  (∀ r, (g r).id = r.id ∧ (g r).original_url = r.original_url ∧
    (g r).snapshot_url = r.snapshot_url ∧ (g r).timestamp = r.timestamp ∧
    r.retries ≤ (g r).retries ∧
    ((g r).status = r.status ∨ (g r).status = "fetched" ∨ (g r).status = "failed"))

lemma fetchRowG_id (uid : Nat) : FetchRowG uid id :=
  ⟨fun _ _ => rfl, fun _ => ⟨rfl, rfl, rfl, rfl, le_refl _, Or.inl rfl⟩⟩

lemma fetchRowG_bump (uid : Nat) : FetchRowG uid (bumpG uid) := by
  constructor
  · intro r hr; simp [bumpG, hr]
  · intro r
    by_cases h : r.id = uid <;>
      simp [bumpG, h, Nat.le_succ]

lemma fetchRowG_status (uid : Nat) (s : String)
    (hs : s = "fetched" ∨ s = "failed") : FetchRowG uid (statusG uid s) := by
  constructor
  · intro r hr; simp [statusG, hr]
  · intro r
    by_cases h : r.id = uid
    · rcases hs with rfl | rfl <;> simp [statusG, h]
    · simp [statusG, h]

lemma fetchRowG_comp {uid : Nat} {g h : UrlRow → UrlRow}
    (hh : FetchRowG uid h) (hg : FetchRowG uid g) : FetchRowG uid (g ∘ h) := by
  constructor
  · intro r hr
    simp only [Function.comp_apply, hh.1 r hr, hg.1 r hr]
  · intro r
    obtain ⟨i1, o1, s1, t1, re1, st1⟩ := hh.2 r
    obtain ⟨i2, o2, s2, t2, re2, st2⟩ := hg.2 (h r)
    refine ⟨by rw [Function.comp_apply, i2, i1],
      by rw [Function.comp_apply, o2, o1],
      by rw [Function.comp_apply, s2, s1],
      by rw [Function.comp_apply, t2, t1],
      le_trans re1 re2, ?_⟩
    rcases st2 with h' | h' | h'
    · rw [Function.comp_apply, h']
      exact st1
    · exact Or.inr (Or.inl h')
    · exact Or.inr (Or.inr h')

/-- Definitional unfolding of one iteration of the fetch loop. -/
lemma fetch_loop_cons (oracle : Nat → FetchOutcome) (max_retries uid : Nat)
    (db : Database) (a : Nat) (rest : List Nat) :
    fetch_page_loop oracle max_retries uid db (a :: rest) =
      match oracle a with
      | .resp status body =>
        if retriable status then fetch_page_loop oracle max_retries uid db rest
        else if status ≠ 200 then
          fetch_page_loop oracle max_retries uid
            (if a = max_retries
              then update_url_status (bump_retry db uid) uid "failed"
              else bump_retry db uid) rest
        else (update_url_status db uid "fetched", some body)
      | .exn _ =>
        fetch_page_loop oracle max_retries uid
          (bump_retry (db.log "error" ("Fetch failed for URL " ++ toString uid))
            uid) rest := rfl

lemma fetch_loop_shape (oracle : Nat → FetchOutcome) (max_retries uid : Nat) :
    ∀ (attempts : List Nat) (db : Database),
      ∃ g, (fetch_page_loop oracle max_retries uid db attempts).1.urls =
          db.urls.map g ∧ FetchRowG uid g := by
  intro attempts
  induction attempts with
  | nil =>
    intro db
    exact ⟨id, by simp [fetch_page_loop], fetchRowG_id uid⟩
  | cons a rest ih =>
    intro db
    rw [fetch_loop_cons]
    rcases ho : oracle a with ⟨status, body⟩ | msg
    · dsimp only
      by_cases hr : retriable status
      · obtain ⟨g, hg, hfg⟩ := ih db
        rw [if_pos hr]
        exact ⟨g, hg, hfg⟩
      · rw [if_neg hr]
        by_cases h200 : status = 200
        · rw [if_neg (not_not_intro h200)]
          exact ⟨statusG uid "fetched", update_url_status_urls db uid _,
            fetchRowG_status uid _ (Or.inl rfl)⟩
        · rw [if_pos h200]
          by_cases hmax : a = max_retries
          · rw [if_pos hmax]
            obtain ⟨g, hg, hfg⟩ :=
              ih (update_url_status (bump_retry db uid) uid "failed")
            refine ⟨(g ∘ statusG uid "failed") ∘ bumpG uid, ?_, ?_⟩
            · rw [hg, update_url_status_urls, bump_retry_urls,
                List.map_map, List.map_map]
            · exact fetchRowG_comp (fetchRowG_bump uid)
                (fetchRowG_comp (fetchRowG_status uid _ (Or.inr rfl)) hfg)
          · rw [if_neg hmax]
            obtain ⟨g, hg, hfg⟩ := ih (bump_retry db uid)
            refine ⟨g ∘ bumpG uid, ?_, fetchRowG_comp (fetchRowG_bump uid) hfg⟩
            rw [hg, bump_retry_urls, List.map_map]
    · obtain ⟨g, hg, hfg⟩ :=
        ih (bump_retry (db.log "error" ("Fetch failed for URL " ++ toString uid)) uid)
      refine ⟨g ∘ bumpG uid, ?_, fetchRowG_comp (fetchRowG_bump uid) hfg⟩
      rw [hg, bump_retry_urls, log_urls, List.map_map]

lemma fetch_loop_articles (oracle : Nat → FetchOutcome) (max_retries uid : Nat) :
    ∀ (attempts : List Nat) (db : Database),
      (fetch_page_loop oracle max_retries uid db attempts).1.articles =
        db.articles := by
  intro attempts
  induction attempts with
  | nil => intro db; simp [fetch_page_loop]
  | cons a rest ih =>
    intro db
    rw [fetch_loop_cons]
    rcases ho : oracle a with ⟨status, body⟩ | msg
    · dsimp only
      by_cases hr : retriable status
      · rw [if_pos hr]; exact ih db
      · rw [if_neg hr]
        by_cases h200 : status = 200
        · rw [if_neg (not_not_intro h200)]; rfl
        · rw [if_pos h200]
          by_cases hmax : a = max_retries
          · rw [if_pos hmax]; exact ih _
          · rw [if_neg hmax]; exact ih _
    · exact ih _

lemma fetch_loop_assets (oracle : Nat → FetchOutcome) (max_retries uid : Nat) :
    ∀ (attempts : List Nat) (db : Database),
      (fetch_page_loop oracle max_retries uid db attempts).1.assets =
        db.assets := by
  intro attempts
  induction attempts with
  | nil => intro db; simp [fetch_page_loop]
  | cons a rest ih =>
    intro db
    rw [fetch_loop_cons]
    rcases ho : oracle a with ⟨status, body⟩ | msg
    · dsimp only
      by_cases hr : retriable status
      · rw [if_pos hr]; exact ih db
      · rw [if_neg hr]
        by_cases h200 : status = 200
        · rw [if_neg (not_not_intro h200)]; rfl
        · rw [if_pos h200]
          by_cases hmax : a = max_retries
          · rw [if_pos hmax]; exact ih _
          · rw [if_neg hmax]; exact ih _
    · exact ih _

/-! ## Fetch loop: all-transient and all-exception runs -/

lemma fetch_loop_all_transient (oracle : Nat → FetchOutcome)
    (max_retries uid : Nat) :
    ∀ (attempts : List Nat) (db : Database),
      (∀ n ∈ attempts, ∃ c b, oracle n = .resp c b ∧ retriable c = true) →
      fetch_page_loop oracle max_retries uid db attempts = (db, none) := by
  intro attempts
  induction attempts with
  | nil => intro db _; rfl
  | cons a rest ih =>
    intro db h
    obtain ⟨c, b, ho, hc⟩ := h a (List.mem_cons_self a rest)
    rw [fetch_loop_cons, ho]
    dsimp only
    rw [if_pos hc]
    exact ih db (fun n hn => h n (List.mem_cons_of_mem _ hn))

lemma map_self_of_eq {α : Type} {l : List α} {f : α → α}
    (h : ∀ a ∈ l, f a = a) : l.map f = l := by
  induction l with
  | nil => rfl
  | cons x t ih =>
    simp only [List.map_cons, h x (List.mem_cons_self x t)]
    rw [ih (fun a ha => h a (List.mem_cons_of_mem _ ha))]

lemma fetch_loop_all_exn (oracle : Nat → FetchOutcome) (max_retries uid : Nat) :
    ∀ (attempts : List Nat) (db : Database),
      (∀ n ∈ attempts, ∃ m, oracle n = .exn m) →
      (fetch_page_loop oracle max_retries uid db attempts).2 = none ∧
      (fetch_page_loop oracle max_retries uid db attempts).1.urls =
        db.urls.map (fun r =>
          if r.id = uid then { r with retries := r.retries + attempts.length }
          else r) := by
  intro attempts
  induction attempts with
  | nil =>
    intro db _
    refine ⟨rfl, (map_self_of_eq (fun r _ => ?_)).symm⟩
    by_cases h : r.id = uid
    · rw [if_pos h]; simp
    · rw [if_neg h]
  | cons a rest ih =>
    intro db h
    obtain ⟨m, ho⟩ := h a (List.mem_cons_self a rest)
    rw [fetch_loop_cons, ho]
    dsimp only
    obtain ⟨h2, hurls⟩ :=
      ih (bump_retry (db.log "error" ("Fetch failed for URL " ++ toString uid)) uid)
        (fun n hn => h n (List.mem_cons_of_mem _ hn))
    refine ⟨h2, ?_⟩
    rw [hurls, bump_retry_urls, log_urls, List.map_map]
    apply List.map_congr_left
    intro r _
    by_cases hid : r.id = uid
    · simp [bumpG, hid]
      omega
    · simp [bumpG, hid]

/-- Rows with a retry counter at or past 5 are invisible to
`get_pending_urls`, whatever their status. -/
lemma get_pending_not_mem_of_retries {db : Database} {uid : Nat}
    (hhi : ∀ r ∈ db.urls, r.id = uid → 5 ≤ r.retries) :
    ∀ limit, ∀ t ∈ get_pending_urls db limit, t.1 ≠ uid := by
  intro limit t ht
  obtain ⟨r, hr, rfl⟩ := List.mem_map.1 ht
  obtain ⟨hrf, hpred⟩ := List.mem_filter.1 (List.mem_of_mem_take hr)
  intro hid
  have h5 : 5 ≤ r.retries := hhi r hrf hid
  simp only [Bool.and_eq_true, decide_eq_true_eq] at hpred
  omega

/-- A minimal store with one pending work item. -/
def dbC1 : Database :=
  { urls := [{ id := 1, original_url := "http://e.com/a", snapshot_url := "s",
               timestamp := "t", status := "pending", retries := 0 }],
    articles := [], assets := [], logs := [] }

/-- C1: counterexample.  A pending work item whose five fetch attempts all
fail with HTTP 503 — a transient, retriable status — ends with its store
row completely unchanged: the retry counter is 0 (not `max_retries` = 5),
the status is "pending" (not "failed"), and `get_pending_urls` still
returns the item for further fetch attempts, contradicting the claim. -/
theorem C1_counterexample_transient_http :
    (fetch_page (fun _ => .resp 503 "") 5 dbC1 1).1 = dbC1 ∧
    (fetch_page (fun _ => .resp 503 "") 5 dbC1 1).1.urls.map
      (fun r => (r.status, r.retries)) = [("pending", 0)] ∧
    get_pending_urls (fetch_page (fun _ => .resp 503 "") 5 dbC1 1).1 100 =
      [(1, "http://e.com/a", "s")] := by
  refine ⟨?_, by decide, by decide⟩
  decide

/-- C1 (amended): after `max_retries` = 5 attempts that all raise a
transport exception, the item's retry counter has increased by exactly 5
(so it is at least 5) and no subsequent call to `get_pending_urls`
returns the item — but its status remains unchanged ("pending"), not
"failed".  Attempts that all fail with a transient HTTP status
(429/500/502/503/504) leave the store completely unchanged: the retry
counter is not incremented and the item stays eligible.  (The status
"failed" is only ever written when the final attempt's response is a
non-retriable non-200 status.) -/
theorem C1_retry_bound_behaviour
    (oracle : Nat → FetchOutcome) (db : Database) (uid : Nat) (r : UrlRow)
    (hexn : ∀ n, 1 ≤ n → n ≤ 5 → ∃ m, oracle n = FetchOutcome.exn m)
    (hfind : findUrl db uid = some r) :
    (fetch_page oracle 5 db uid).2 = none ∧
    findUrl (fetch_page oracle 5 db uid).1 uid =
      some { r with retries := r.retries + 5 } ∧
    (∀ limit t, t ∈ get_pending_urls (fetch_page oracle 5 db uid).1 limit →
      t.1 ≠ uid) ∧
    (∀ oracle2 : Nat → FetchOutcome,
      (∀ n, 1 ≤ n → n ≤ 5 → ∃ c b, oracle2 n = .resp c b ∧ retriable c = true) →
      fetch_page oracle2 5 db uid = (db, none)) := by
  have hmem : ∀ n ∈ List.range' 1 5, ∃ m, oracle n = FetchOutcome.exn m := by
    intro n hn
    have := List.mem_range'_1.1 hn
    exact hexn n (by omega) (by omega)
  obtain ⟨h2, hurls⟩ := fetch_loop_all_exn oracle 5 uid (List.range' 1 5) db hmem
  have h2' : (fetch_page oracle 5 db uid).2 = none := h2
  have hurls' : (fetch_page oracle 5 db uid).1.urls =
      db.urls.map (fun x =>
        if x.id = uid
        then { x with retries := x.retries + (List.range' 1 5).length }
        else x) := hurls
  have hg : ∀ x : UrlRow,
      ((if x.id = uid then { x with retries := x.retries + (List.range' 1 5).length }
        else x) : UrlRow).id = x.id := by
    intro x
    by_cases h : x.id = uid <;> simp [h]
  refine ⟨h2', ?_, ?_, ?_⟩
  · have hfind' : db.urls.find? (fun x => x.id == uid) = some r := hfind
    unfold findUrl
    rw [hurls']
    rw [find?_map_eq _ _ _ (fun x => by rw [hg x])]
    rw [hfind']
    have hrid : r.id = uid := by
      have hp := List.find?_some hfind'
      simpa using hp
    simp [hrid]
  · intro limit t ht
    refine get_pending_not_mem_of_retries ?_ limit t ht
    intro x hx hxid
    rw [hurls'] at hx
    obtain ⟨y, _, rfl⟩ := List.mem_map.1 hx
    by_cases h : y.id = uid
    · rw [if_pos h]
      simp
    · rw [if_neg h] at hxid
      exact absurd hxid h
  · intro oracle2 h
    apply fetch_loop_all_transient
    intro n hn
    have := List.mem_range'_1.1 hn
    exact h n (by omega) (by omega)

/-- C1 (amended), instantiated: the all-exception and all-transient runs
on the one-row store behave as stated. -/
theorem C1_retry_bound_behaviour_witness :
    (fetch_page (fun _ => FetchOutcome.exn "boom") 5 dbC1 1).2 = none ∧
    findUrl (fetch_page (fun _ => FetchOutcome.exn "boom") 5 dbC1 1).1 1 =
      some { id := 1, original_url := "http://e.com/a", snapshot_url := "s",
             timestamp := "t", status := "pending", retries := 5 } := by
  have h := C1_retry_bound_behaviour (fun _ => FetchOutcome.exn "boom") dbC1 1
    { id := 1, original_url := "http://e.com/a", snapshot_url := "s",
      timestamp := "t", status := "pending", retries := 0 }
    (fun n _ _ => ⟨"boom", rfl⟩) rfl
  exact ⟨h.1, h.2.1⟩

/-! ## URL normalization (`normalize_url`) -/

lemma splitAtFirst_append_of_not_mem {sep : Char} :
    ∀ {l1 : List Char}, sep ∉ l1 → ∀ l2,
      splitAtFirst sep (l1 ++ sep :: l2) = (l1, some l2) := by
  intro l1
  induction l1 with
  | nil => intro _ l2; simp [splitAtFirst]
  | cons c cs ih =>
    intro h l2
    have hc : c ≠ sep := fun hc => h (hc ▸ List.mem_cons_self c cs)
    have hcs : sep ∉ cs := fun hm => h (List.mem_cons_of_mem _ hm)
    show splitAtFirst sep (c :: (cs ++ sep :: l2)) = (c :: cs, some l2)
    rw [show splitAtFirst sep (c :: (cs ++ sep :: l2)) =
        if c = sep then ([], some (cs ++ sep :: l2))
        else (c :: (splitAtFirst sep (cs ++ sep :: l2)).1,
              (splitAtFirst sep (cs ++ sep :: l2)).2) from rfl]
    rw [if_neg hc, ih hcs l2]

lemma takeWhile_append_of_all {α : Type} {p : α → Bool} :
    ∀ {l1 l2 : List α}, (∀ c ∈ l1, p c = true) →
      (l1 ++ l2).takeWhile p = l1 ++ l2.takeWhile p := by
  intro l1
  induction l1 with
  | nil => intro l2 _; rfl
  | cons c cs ih =>
    intro l2 h
    rw [List.cons_append, List.takeWhile_cons, h c (List.mem_cons_self c cs),
      if_pos rfl, ih (fun x hx => h x (List.mem_cons_of_mem _ hx)),
      List.cons_append]

lemma dropWhile_append_of_all {α : Type} {p : α → Bool} :
    ∀ {l1 l2 : List α}, (∀ c ∈ l1, p c = true) →
      (l1 ++ l2).dropWhile p = l2.dropWhile p := by
  intro l1
  induction l1 with
  | nil => intro l2 _; rfl
  | cons c cs ih =>
    intro l2 h
    rw [List.cons_append, List.dropWhile_cons, h c (List.mem_cons_self c cs),
      if_pos rfl, ih (fun x hx => h x (List.mem_cons_of_mem _ hx))]

/-- For wellformed absolute URLs `scheme://host/path?query` (or with a
`#fragment` tail), the embedded `urlparse` returns exactly the host and
path components.  The hypotheses say: the scheme is a nonempty valid
scheme, the host has no delimiter characters, the path is empty or starts
with a slash and has no `?`/`#`, and the tail is empty or starts with `?`
or `#`. -/
lemma urlsplit_of_wellformed (scheme host path qf : List Char)
    (hs1 : scheme ≠ []) (hs2 : (scheme.headD ' ').isAlpha = true)
    (hs3 : ∀ c ∈ scheme, scheme_char c = true)
    (hh : ∀ c ∈ host, c ≠ '/' ∧ c ≠ '?' ∧ c ≠ '#')
    (hp1 : path = [] ∨ path.headD ' ' = '/')
    (hp2 : ∀ c ∈ path, c ≠ '?' ∧ c ≠ '#')
    (hq : qf = [] ∨ qf.headD ' ' = '?' ∨ qf.headD ' ' = '#') :
    urlsplit_netloc_path (scheme ++ ':' :: '/' :: '/' :: (host ++ (path ++ qf)))
      = (host, path) := by
  have hcolon : ':' ∉ scheme := by
    intro hmem
    have := hs3 ':' hmem
    simp [scheme_char] at this
  have hstrip : stripScheme (scheme ++ ':' :: '/' :: '/' :: (host ++ (path ++ qf)))
      = '/' :: '/' :: (host ++ (path ++ qf)) := by
    unfold stripScheme
    rw [splitAtFirst_append_of_not_mem hcolon]
    dsimp only
    rw [if_pos ⟨hs1, hs2, List.all_eq_true.2 hs3⟩]
  unfold urlsplit_netloc_path
  rw [hstrip]
  simp only [List.take_succ_cons, List.take_zero, List.drop_succ_cons,
    List.drop_zero, if_true]
  have hhost : ∀ c ∈ host,
      (fun c => decide ¬(c = '/' ∨ c = '?' ∨ c = '#')) c = true := by
    intro c hc
    obtain ⟨h1, h2, h3⟩ := hh c hc
    simp [h1, h2, h3]
  rw [takeWhile_append_of_all hhost, dropWhile_append_of_all hhost]
  have htail : (path ++ qf).takeWhile
      (fun c => decide ¬(c = '/' ∨ c = '?' ∨ c = '#')) = [] := by
    rcases hp1 with rfl | hp
    · rcases hq with rfl | hq2
      · rfl
      · cases qf with
        | nil => rfl
        | cons q qs =>
          simp only [List.headD_cons] at hq2
          rcases hq2 with rfl | rfl <;> simp [List.takeWhile_cons]
    · cases path with
      | nil => exact absurd hp (by simp)
      | cons p ps =>
        simp only [List.headD_cons] at hp
        subst hp
        simp [List.takeWhile_cons]
  have hdrop : (path ++ qf).dropWhile
      (fun c => decide ¬(c = '/' ∨ c = '?' ∨ c = '#')) = path ++ qf := by
    rcases hp1 with rfl | hp
    · rcases hq with rfl | hq2
      · rfl
      · cases qf with
        | nil => rfl
        | cons q qs =>
          simp only [List.headD_cons] at hq2
          rcases hq2 with rfl | rfl <;> simp [List.dropWhile_cons]
    · cases path with
      | nil => exact absurd hp (by simp)
      | cons p ps =>
        simp only [List.headD_cons] at hp
        subst hp
        simp [List.dropWhile_cons]
  rw [htail, hdrop, List.append_nil]
  have hpath : ∀ c ∈ path, (fun c => decide ¬(c = '?' ∨ c = '#')) c = true := by
    intro c hc
    obtain ⟨h1, h2⟩ := hp2 c hc
    simp [h1, h2]
  rw [takeWhile_append_of_all hpath]
  have hqf : qf.takeWhile (fun c => decide ¬(c = '?' ∨ c = '#')) = [] := by
    rcases hq with rfl | hq2
    · rfl
    · cases qf with
      | nil => rfl
      | cons q qs =>
        simp only [List.headD_cons] at hq2
        rcases hq2 with rfl | rfl <;> simp [List.takeWhile_cons]
  rw [hqf, List.append_nil]

/-- C3: counterexample.  Python's `str.lstrip('www.')` removes leading
characters from the SET {'w', '.'}, not one literal "www." occurrence:
the host "wexample.com" does not begin with "www." yet `normalize_url`
returns "example.com" for it, not the merely lower-cased host the claim
requires. -/
theorem C3_counterexample_lstrip_set :
    (normalize_url "http://wexample.com/x").1 = "example.com" ∧
    (normalize_url "http://wexample.com/x").1 ≠ "wexample.com" := by decide

/-- C3 (amended): for every wellformed absolute URL
`scheme://host/path` with an optional `?query` or `#fragment` tail,
`normalize_url` returns the host lower-cased and stripped of ALL leading
characters belonging to the set {'w', '.'} (Python `lstrip('www.')`
semantics — this removes one leading "www." when a character outside the
set follows, but also eats into hosts such as "wexample.com"), and the
path with trailing slashes removed and runs of consecutive slashes
collapsed to one; the scheme and the query/fragment tail have no effect
on the result. -/
theorem C3_normalize_url_behaviour (scheme host path qf : List Char)
    (hs1 : scheme ≠ []) (hs2 : (scheme.headD ' ').isAlpha = true)
    (hs3 : ∀ c ∈ scheme, scheme_char c = true)
    (hh : ∀ c ∈ host, c ≠ '/' ∧ c ≠ '?' ∧ c ≠ '#')
    (hp1 : path = [] ∨ path.headD ' ' = '/')
    (hp2 : ∀ c ∈ path, c ≠ '?' ∧ c ≠ '#')
    (hq : qf = [] ∨ qf.headD ' ' = '?' ∨ qf.headD ' ' = '#') :
    normalize_url ⟨scheme ++ ':' :: '/' :: '/' :: (host ++ (path ++ qf))⟩ =
      (⟨pyLstrip ['w', '.'] (host.map Char.toLower)⟩,
       ⟨collapseSlashes (pyRstrip ['/'] path)⟩) := by
  unfold normalize_url
  rw [show (String.mk (scheme ++ ':' :: '/' :: '/' :: (host ++ (path ++ qf)))).data
      = scheme ++ ':' :: '/' :: '/' :: (host ++ (path ++ qf)) from rfl]
  rw [urlsplit_of_wellformed scheme host path qf hs1 hs2 hs3 hh hp1 hp2 hq]

/-- C3 (amended), instantiated on `http://www.Example.com//a/b//?q=1`. -/
theorem C3_normalize_url_behaviour_witness :
    normalize_url "http://www.Example.com//a/b//?q=1" = ("example.com", "/a/b") := by
  have h := C3_normalize_url_behaviour "http".data "www.Example.com".data
    "//a/b//".data "?q=1".data (by decide) (by decide) (by decide) (by decide)
    (by decide) (by decide) (by decide)
  rw [show ("http://www.Example.com//a/b//?q=1" : String) =
    ⟨"http".data ++ ':' :: '/' :: '/' ::
      ("www.Example.com".data ++ ("//a/b//".data ++ "?q=1".data))⟩ by rfl]
  rw [h]
  decide

/-! ## Discovery counting and idempotence (C2) -/

lemma discover_foldl_count (rows : List CdxItem) :
    ∀ (db : Database) (k : Nat),
      (rows.foldl discover_step (db, k)).2 =
        k + (rows.filter (fun i => !excluded i.original)).length := by
  induction rows with
  | nil => intro db k; simp
  | cons i rest ih =>
    intro db k
    by_cases h : excluded i.original
    · simp only [List.foldl_cons, discover_step, if_pos h]
      rw [ih db k]
      simp [h]
    · simp only [List.foldl_cons, discover_step, if_neg h]
      rw [ih _ (k + 1)]
      simp [h]
      omega

lemma add_url_mem_original (db : Database) (o s t : String) :
    ∃ r ∈ (add_url db o s t).urls, r.original_url = o := by
  by_cases h : ∃ r ∈ db.urls, r.original_url = o
  · rw [add_url_of_mem s t h]; exact h
  · push_neg at h
    rw [add_url_of_not_mem s t h]
    exact ⟨newUrlRow db o s t, by simp, rfl⟩

lemma add_url_mono_mem {db : Database} {r : UrlRow} (o s t : String)
    (h : r ∈ db.urls) : r ∈ (add_url db o s t).urls := by
  unfold add_url
  by_cases hx : db.urls.any (fun x => x.original_url == o)
  · rw [if_pos hx]; exact h
  · rw [if_neg hx]; exact List.mem_append_left _ h

lemma discover_foldl_mono_mem (rows : List CdxItem) :
    ∀ {db : Database} {k : Nat} {r : UrlRow}, r ∈ db.urls →
      r ∈ (rows.foldl discover_step (db, k)).1.urls := by
  induction rows with
  | nil => intro db k r h; exact h
  | cons i rest ih =>
    intro db k r h
    rw [List.foldl_cons]
    unfold discover_step
    by_cases hx : excluded i.original
    · rw [if_pos hx]; exact ih h
    · rw [if_neg hx]; exact ih (add_url_mono_mem _ _ _ h)

lemma discover_foldl_covers (rows : List CdxItem) :
    ∀ (db : Database) (k : Nat) (i : CdxItem), i ∈ rows →
      excluded i.original = false →
      ∃ r ∈ (rows.foldl discover_step (db, k)).1.urls,
        r.original_url = i.original := by
  induction rows with
  | nil => intro db k i hi; cases hi
  | cons j rest ih =>
    intro db k i hi hex
    rcases List.mem_cons.1 hi with rfl | hi'
    · rw [List.foldl_cons]
      unfold discover_step
      rw [if_neg (by rw [hex]; exact Bool.false_ne_true)]
      obtain ⟨r, hr, hro⟩ := add_url_mem_original db i.original
        ("https://web.archive.org/web/" ++ i.timestamp ++ "id_/" ++ i.original)
        i.timestamp
      exact ⟨r, discover_foldl_mono_mem rest hr, hro⟩
    · rw [List.foldl_cons]
      unfold discover_step
      by_cases hx : excluded j.original
      · rw [if_pos hx]; exact ih db k i hi' hex
      · rw [if_neg hx]; exact ih _ _ i hi' hex

lemma discover_foldl_urls_noop (rows : List CdxItem) :
    ∀ (db : Database) (k : Nat),
      (∀ i ∈ rows, excluded i.original = false →
        ∃ r ∈ db.urls, r.original_url = i.original) →
      (rows.foldl discover_step (db, k)).1.urls = db.urls := by
  induction rows with
  | nil => intro db k _; rfl
  | cons j rest ih =>
    intro db k h
    rw [List.foldl_cons]
    unfold discover_step
    by_cases hx : excluded j.original
    · rw [if_pos hx]
      exact ih db k (fun i hi hex => h i (List.mem_cons_of_mem _ hi) hex)
    · rw [if_neg hx]
      rw [add_url_of_mem _ _
        (h j (List.mem_cons_self j rest) (Bool.not_eq_true _ ▸ hx))]
      exact ih db (k + 1) (fun i hi hex => h i (List.mem_cons_of_mem _ hi) hex)

/-- An empty store. -/
def dbEmpty : Database := { urls := [], articles := [], assets := [], logs := [] }

/-- One CDX row, as repeated identical index responses would yield. -/
def rowsC2 : List CdxItem := [{ original := "http://e.com/a", timestamp := "20200101" }]

/-- C2: counterexample.  A second `discover_urls` call with the same index
response inserts zero new rows — the urls table is unchanged — yet it
returns 1, not 0: the counter counts every row passing the path filter,
not the newly inserted ones. -/
theorem C2_counterexample_recount :
    (discover_urls (discover_urls dbEmpty "e.com" rowsC2).1 "e.com" rowsC2).1.urls
      = (discover_urls dbEmpty "e.com" rowsC2).1.urls ∧
    (discover_urls (discover_urls dbEmpty "e.com" rowsC2).1 "e.com" rowsC2).2 ≠ 0 := by
  exact ⟨by decide, by decide⟩

/-- C2 (amended): `discover_urls` returns the number of CDX rows passing
the path-exclusion filter, counting rows whose URL is already known; a
second call with the same rows inserts no new url row (the table is
unchanged) but returns that same filtered count again, not 0. -/
theorem C2_discover_count_behaviour (db : Database) (domain : String)
    (rows : List CdxItem) :
    (discover_urls db domain rows).2 =
      (rows.filter (fun i => !excluded i.original)).length ∧
    (∀ i ∈ rows, excluded i.original = false →
      ∃ r ∈ (discover_urls db domain rows).1.urls,
        r.original_url = i.original) ∧
    (discover_urls (discover_urls db domain rows).1 domain rows).1.urls =
      (discover_urls db domain rows).1.urls ∧
    (discover_urls (discover_urls db domain rows).1 domain rows).2 =
      (discover_urls db domain rows).2 := by
  have hcount : ∀ (d : Database),
      (discover_urls d domain rows).2 =
        (rows.filter (fun i => !excluded i.original)).length := by
    intro d
    show (rows.foldl discover_step (d, 0)).2 = _
    rw [discover_foldl_count rows d 0, Nat.zero_add]
  have hurls : ∀ (d : Database),
      (discover_urls d domain rows).1.urls =
        (rows.foldl discover_step (d, 0)).1.urls := fun d => rfl
  have hmem : ∀ i ∈ rows, excluded i.original = false →
      ∃ r ∈ (discover_urls db domain rows).1.urls,
        r.original_url = i.original := by
    intro i hi hex
    rw [hurls]
    exact discover_foldl_covers rows db 0 i hi hex
  refine ⟨hcount db, hmem, ?_, ?_⟩
  · rw [hurls, hurls]
    exact discover_foldl_urls_noop rows _ 0 hmem
  · rw [hcount, hcount]

/-- C2 (amended), instantiated on the one-row index response. -/
theorem C2_discover_count_behaviour_witness :
    (discover_urls dbEmpty "e.com" rowsC2).2 =
      (rowsC2.filter (fun i => !excluded i.original)).length :=
  (C2_discover_count_behaviour dbEmpty "e.com" rowsC2).1

/-! ## Publisher lemmas (C4, C6) -/

/-- The article update a successful create applies (rows matching the
published article id get the returned id, permalink and status). -/
def publishedG (aid pid : Nat) (link : String) : ArticleRow → ArticleRow :=
  fun a =>
    if a.id = aid then
      { a with wp_post_id := some pid, wp_permalink := some link,
               status := "published" }
    else a

lemma asset_step_of_upload_some {net : PublishNet} {asset : AssetRow}
    {m : Media} (acc : Database × Doc × Option Nat)
    (h : net.upload asset.original_url asset.alt_text = some m) :
    asset_step net acc asset =
      ({ acc.1 with
         assets := acc.1.assets.map (fun a =>
           if a.id = asset.id then
             { a with wp_media_id := some m.id, wp_url := some m.url,
                      uploaded := true }
           else a) },
       replaceImg asset.original_url m.url asset.alt_text acc.2.1,
       acc.2.2 <|> some m.id) := by
  unfold asset_step
  rw [h]

lemma asset_step_of_upload_none {net : PublishNet} {asset : AssetRow}
    (acc : Database × Doc × Option Nat)
    (h : net.upload asset.original_url asset.alt_text = none) :
    asset_step net acc asset = acc := by
  unfold asset_step
  rw [h]

lemma asset_step_articles (net : PublishNet) (acc : Database × Doc × Option Nat)
    (asset : AssetRow) :
    (asset_step net acc asset).1.articles = acc.1.articles := by
  unfold asset_step
  cases net.upload asset.original_url asset.alt_text <;> rfl

lemma asset_step_urls (net : PublishNet) (acc : Database × Doc × Option Nat)
    (asset : AssetRow) :
    (asset_step net acc asset).1.urls = acc.1.urls := by
  unfold asset_step
  cases net.upload asset.original_url asset.alt_text <;> rfl

lemma asset_fold_articles (net : PublishNet) :
    ∀ (assets : List AssetRow) (acc : Database × Doc × Option Nat),
      (assets.foldl (asset_step net) acc).1.articles = acc.1.articles := by
  intro assets
  induction assets with
  | nil => intro acc; rfl
  | cons a rest ih =>
    intro acc
    rw [List.foldl_cons, ih, asset_step_articles]

lemma asset_fold_urls (net : PublishNet) :
    ∀ (assets : List AssetRow) (acc : Database × Doc × Option Nat),
      (assets.foldl (asset_step net) acc).1.urls = acc.1.urls := by
  intro assets
  induction assets with
  | nil => intro acc; rfl
  | cons a rest ih =>
    intro acc
    rw [List.foldl_cons, ih, asset_step_urls]

lemma publish_article_urls (net : PublishNet) (cat : Nat) (db : Database)
    (aid : Nat) : (publish_article net cat db aid).1.urls = db.urls := by
  unfold publish_article
  cases hf : db.articles.find? (fun a => a.id == aid) with
  | none => rfl
  | some art =>
    dsimp only
    cases hc : net.create _ with
    | some pl =>
      dsimp only
      exact asset_fold_urls net _ _
    | none =>
      dsimp only
      exact asset_fold_urls net _ _

lemma publish_article_articles_cases (net : PublishNet) (cat : Nat)
    (db : Database) (aid : Nat) :
    (publish_article net cat db aid).1.articles = db.articles ∨
    ∃ pid link, (publish_article net cat db aid).1.articles =
      db.articles.map (publishedG aid pid link) := by
  unfold publish_article
  cases hf : db.articles.find? (fun a => a.id == aid) with
  | none => exact Or.inl rfl
  | some art =>
    dsimp only
    cases hc : net.create _ with
    | some pl =>
      refine Or.inr ⟨pl.1, pl.2, ?_⟩
      dsimp only
      rw [asset_fold_articles net _ _]
      rfl
    | none =>
      refine Or.inl ?_
      dsimp only
      rw [show ∀ d : Database, ∀ l m, (Database.log d l m).articles = d.articles
        from fun d l m => rfl]
      exact asset_fold_articles net _ _

/-- C4: when the first of an article's two pending assets uploads
successfully and the second fails, `publish_article` still sends the
create request and — the endpoint answering 201 — returns success and
marks the article published; the payload's body is the original body with
exactly the first asset's image references rewritten to the new remote
URL (the second asset's rewrite never runs), and the first asset's media
id is sent as `featured_media`. -/
theorem C4_publish_partial_success
    (net : PublishNet) (cat : Nat) (db : Database) (aid : Nat)
    (art : ArticleRow) (a1 a2 : AssetRow) (m : Media) (pid : Nat) (link : String)
    (hart : db.articles.find? (fun a => a.id == aid) = some art)
    (hassets : db.assets.filter
      (fun a => a.article_id == aid && a.uploaded == false) = [a1, a2])
    (hup1 : net.upload a1.original_url a1.alt_text = some m)
    (hup2 : net.upload a2.original_url a2.alt_text = none)
    (hcreate : ∀ pd, net.create pd = some (pid, link)) :
    (publish_article net cat db aid).2.1 = true ∧
    (∃ pd, (publish_article net cat db aid).2.2 = some pd ∧
      pd.content = replaceImg a1.original_url m.url a1.alt_text art.content ∧
      pd.featured_media = some m.id ∧ pd.status = "draft" ∧
      pd.title = art.title) ∧
    (publish_article net cat db aid).1.articles.find? (fun a => a.id == aid) =
      some { art with wp_post_id := some pid, wp_permalink := some link,
                      status := "published" } := by
  have hartid : art.id = aid := by
    have hp := List.find?_some hart
    simpa using hp
  unfold publish_article
  rw [hart]
  dsimp only
  rw [hassets]
  simp only [List.foldl_cons, List.foldl_nil]
  rw [asset_step_of_upload_some _ hup1]
  rw [asset_step_of_upload_none _ hup2]
  dsimp only
  simp only [Option.none_orElse]
  rw [hcreate]
  dsimp only
  refine ⟨rfl, ⟨_, rfl, rfl, rfl, rfl, rfl⟩, ?_⟩
  rw [find?_map_eq db.articles _ _ (fun a => by
    by_cases h : a.id = aid <;> simp [h])]
  rw [hart]
  simp [hartid]

/-- C4, instantiated on a concrete two-asset article. -/
theorem C4_publish_partial_success_witness :
    (publish_article
      { upload := fun u _ => if u == "http://img/one.jpg"
          then some { id := 77, url := "http://wp/m/one.jpg" } else none,
        create := fun _ => some (9, "http://wp/p/9") } 1
      { urls := [{ id := 1, original_url := "http://e.com/post/p",
                   snapshot_url := "s", timestamp := "t",
                   status := "fetched", retries := 0 }],
        articles := [{ id := 1, url_id := 1, title := "T",
                       content := [Node.img "http://img/one.jpg" "",
                                   Node.img "http://img/two.jpg" ""],
                       excerpt := "E", pub_date := "D", category := "c",
                       tags := "", wp_post_id := none, wp_permalink := none,
                       status := "draft" }],
        assets := [{ id := 1, article_id := 1,
                     original_url := "http://img/one.jpg",
                     wp_media_id := none, wp_url := none, uploaded := false,
                     alt_text := "alt1" },
                   { id := 2, article_id := 1,
                     original_url := "http://img/two.jpg",
                     wp_media_id := none, wp_url := none, uploaded := false,
                     alt_text := "" }],
        logs := [] } 1).2.1 = true := by
  have h := C4_publish_partial_success
    { upload := fun u _ => if u == "http://img/one.jpg"
        then some { id := 77, url := "http://wp/m/one.jpg" } else none,
      create := fun _ => some (9, "http://wp/p/9") } 1
    { urls := [{ id := 1, original_url := "http://e.com/post/p",
                 snapshot_url := "s", timestamp := "t",
                 status := "fetched", retries := 0 }],
      articles := [{ id := 1, url_id := 1, title := "T",
                     content := [Node.img "http://img/one.jpg" "",
                                 Node.img "http://img/two.jpg" ""],
                     excerpt := "E", pub_date := "D", category := "c",
                     tags := "", wp_post_id := none, wp_permalink := none,
                     status := "draft" }],
      assets := [{ id := 1, article_id := 1,
                   original_url := "http://img/one.jpg",
                   wp_media_id := none, wp_url := none, uploaded := false,
                   alt_text := "alt1" },
                 { id := 2, article_id := 1,
                   original_url := "http://img/two.jpg",
                   wp_media_id := none, wp_url := none, uploaded := false,
                   alt_text := "" }],
      logs := [] } 1
    { id := 1, url_id := 1, title := "T",
      content := [Node.img "http://img/one.jpg" "",
                  Node.img "http://img/two.jpg" ""],
      excerpt := "E", pub_date := "D", category := "c", tags := "",
      wp_post_id := none, wp_permalink := none, status := "draft" }
    { id := 1, article_id := 1, original_url := "http://img/one.jpg",
      wp_media_id := none, wp_url := none, uploaded := false,
      alt_text := "alt1" }
    { id := 2, article_id := 1, original_url := "http://img/two.jpg",
      wp_media_id := none, wp_url := none, uploaded := false, alt_text := "" }
    { id := 77, url := "http://wp/m/one.jpg" } 9 "http://wp/p/9"
    (by decide) (by decide) (by decide) (by decide) (fun pd => rfl)
  exact h.1

/-! ## Link-fixer lemmas (C5, C9) -/

/-- Whether the link-fix loop pushes, persists and counts a cursor row:
its body rewrite changed something AND the remote update returned 200. -/
def fixChanged (remoteOk : Nat → Doc → Bool)
    (nm : List ((String × String) × String)) (art : ArticleRow) : Bool :=
  (rewriteDoc nm art.content).2 &&
    remoteOk (art.wp_post_id.getD 0) (rewriteDoc nm art.content).1

lemma fix_step_eq (remoteOk : Nat → Doc → Bool)
    (nm : List ((String × String) × String)) (acc : Database × Nat)
    (art : ArticleRow) :
    fix_step remoteOk nm acc art =
      if fixChanged remoteOk nm art then
        ({ acc.1 with
           articles := acc.1.articles.map (fun a =>
             if a.id = art.id
             then { a with content := (rewriteDoc nm art.content).1 } else a) },
         acc.2 + 1)
      else acc := by
  unfold fix_step fixChanged
  dsimp only
  by_cases h1 : (rewriteDoc nm art.content).2 = true
  · by_cases h2 : remoteOk (art.wp_post_id.getD 0) (rewriteDoc nm art.content).1 = true
    · simp [h1, h2]
    · simp [h1, h2]
  · simp [h1]

lemma fix_fold_count (remoteOk : Nat → Doc → Bool)
    (nm : List ((String × String) × String)) :
    ∀ (arts : List ArticleRow) (acc : Database × Nat),
      (arts.foldl (fix_step remoteOk nm) acc).2 =
        acc.2 + (arts.filter (fixChanged remoteOk nm)).length := by
  intro arts
  induction arts with
  | nil => intro acc; simp
  | cons art rest ih =>
    intro acc
    rw [List.foldl_cons, fix_step_eq]
    by_cases h : fixChanged remoteOk nm art = true
    · rw [if_pos h, ih]
      simp [h]
      omega
    · rw [if_neg h, ih]
      simp [h]

lemma fix_fold_urls (remoteOk : Nat → Doc → Bool)
    (nm : List ((String × String) × String)) :
    ∀ (arts : List ArticleRow) (acc : Database × Nat),
      (arts.foldl (fix_step remoteOk nm) acc).1.urls = acc.1.urls := by
  intro arts
  induction arts with
  | nil => intro acc; rfl
  | cons art rest ih =>
    intro acc
    rw [List.foldl_cons, fix_step_eq]
    by_cases h : fixChanged remoteOk nm art = true
    · rw [if_pos h, ih]
    · rw [if_neg h, ih]

lemma fix_fold_noop (remoteOk : Nat → Doc → Bool)
    (nm : List ((String × String) × String)) :
    ∀ (arts : List ArticleRow) (acc : Database × Nat),
      (∀ a ∈ arts, fixChanged remoteOk nm a = false) →
      arts.foldl (fix_step remoteOk nm) acc = acc := by
  intro arts
  induction arts with
  | nil => intro acc _; rfl
  | cons art rest ih =>
    intro acc h
    rw [List.foldl_cons, fix_step_eq,
      if_neg (by rw [h art (List.mem_cons_self art rest)]; exact Bool.false_ne_true)]
    exact ih acc (fun a ha => h a (List.mem_cons_of_mem _ ha))

lemma find?_map_content_update_other (l : List ArticleRow) (tid oid : Nat)
    (d : Doc) (hne : oid ≠ tid) :
    (l.map (fun a => if a.id = oid then { a with content := d } else a)).find?
        (fun a => a.id == tid) = l.find? (fun a => a.id == tid) := by
  rw [find?_map_eq _ _ _ (fun a => by by_cases h : a.id = oid <;> simp [h])]
  cases hf : l.find? (fun a => a.id == tid) with
  | none => rfl
  | some a =>
    have ha : a.id = tid := by simpa using List.find?_some hf
    simp only [Option.map_some']
    rw [if_neg (fun hh : a.id = oid => hne (by rw [← hh, ha]))]

lemma fix_fold_find?_unchanged (remoteOk : Nat → Doc → Bool)
    (nm : List ((String × String) × String)) (tid : Nat) :
    ∀ (arts : List ArticleRow) (acc : Database × Nat),
      (∀ a ∈ arts, a.id = tid → fixChanged remoteOk nm a = false) →
      (arts.foldl (fix_step remoteOk nm) acc).1.articles.find?
          (fun a => a.id == tid) =
        acc.1.articles.find? (fun a => a.id == tid) := by
  intro arts
  induction arts with
  | nil => intro acc _; rfl
  | cons art rest ih =>
    intro acc h
    rw [List.foldl_cons, fix_step_eq]
    by_cases hc : fixChanged remoteOk nm art = true
    · have hne : art.id ≠ tid := by
        intro hid
        rw [h art (List.mem_cons_self art rest) hid] at hc
        exact Bool.false_ne_true hc
      rw [if_pos hc, ih _ (fun a ha hid => h a (List.mem_cons_of_mem _ ha) hid)]
      exact find?_map_content_update_other _ _ _ _ hne
    · rw [if_neg hc]
      exact ih acc (fun a ha hid => h a (List.mem_cons_of_mem _ ha) hid)

lemma get_url_mapping_content_update (db : Database) (oid : Nat) (d : Doc) :
    get_url_mapping { db with
      articles := db.articles.map (fun a =>
        if a.id = oid then { a with content := d } else a) } =
    get_url_mapping db := by
  unfold get_url_mapping
  dsimp only
  apply congrArg
  apply List.map_congr_left
  intro u _
  rw [List.filter_map]
  rw [show ((fun a : ArticleRow => a.url_id == u.id && a.wp_permalink.isSome) ∘
      (fun a => if a.id = oid then { a with content := d } else a)) =
      (fun a : ArticleRow => a.url_id == u.id && a.wp_permalink.isSome) from
    funext (fun a => by by_cases h : a.id = oid <;> simp [h])]
  rw [List.map_map]
  apply List.map_congr_left
  intro a _
  by_cases h : a.id = oid <;> simp [h]

lemma fix_fold_get_url_mapping (remoteOk : Nat → Doc → Bool)
    (nm : List ((String × String) × String)) :
    ∀ (arts : List ArticleRow) (acc : Database × Nat),
      get_url_mapping (arts.foldl (fix_step remoteOk nm) acc).1 =
        get_url_mapping acc.1 := by
  intro arts
  induction arts with
  | nil => intro acc; rfl
  | cons art rest ih =>
    intro acc
    rw [List.foldl_cons, fix_step_eq]
    by_cases h : fixChanged remoteOk nm art = true
    · rw [if_pos h, ih]
      exact get_url_mapping_content_update acc.1 art.id (rewriteDoc nm art.content).1
    · rw [if_neg h, ih]

/-! ## Rewrite idempotence and the link-fix fixed point -/

/-- Definitional unfolding of `fix_internal_links`. -/
lemma fix_internal_links_eq (remoteOk : Nat → Doc → Bool) (db : Database) :
    fix_internal_links remoteOk db =
      (db.articles.filter (fun a => a.wp_post_id.isSome)).foldl
        (fix_step remoteOk (norm_map (get_url_mapping db))) (db, 0) := rfl

/-- The side condition the fixed-point property needs: a permalink bound
in the normalized lookup never itself normalizes to a key bound to a
different permalink. -/
def mapIdem (nm : List ((String × String) × String)) : Prop :=
  ∀ k t, dictFind nm k = some t →
    ∀ t', dictFind nm (normalize_url t) = some t' → t' = t

lemma rewriteNode_a_eq (nm : List ((String × String) × String)) (href : String) :
    rewriteNode nm (Node.a href) =
      match dictFind nm (normalize_url href) with
      | some target =>
        if href ≠ target then (Node.a target, true) else (Node.a href, false)
      | none => (Node.a href, false) := rfl

lemma rewriteNode_a_of_none {nm : List ((String × String) × String)}
    {href : String} (h : dictFind nm (normalize_url href) = none) :
    rewriteNode nm (Node.a href) = (Node.a href, false) := by
  rw [rewriteNode_a_eq, h]

lemma rewriteNode_a_of_some {nm : List ((String × String) × String)}
    {href t : String} (h : dictFind nm (normalize_url href) = some t) :
    rewriteNode nm (Node.a href) =
      if href ≠ t then (Node.a t, true) else (Node.a href, false) := by
  rw [rewriteNode_a_eq, h]

lemma rewriteNode_false_eq {nm : List ((String × String) × String)} {n : Node}
    (h : (rewriteNode nm n).2 = false) : (rewriteNode nm n).1 = n := by
  cases n with
  | img s alt => rfl
  | text s => rfl
  | a href =>
    cases hd : dictFind nm (normalize_url href) with
    | none => rw [rewriteNode_a_of_none hd]
    | some t =>
      rw [rewriteNode_a_of_some hd] at h ⊢
      by_cases he : href = t
      · rw [if_neg (not_not_intro he)]
      · rw [if_pos he] at h
        cases h

lemma rewriteNode_idem {nm : List ((String × String) × String)}
    (hidem : mapIdem nm) (n : Node) :
    rewriteNode nm (rewriteNode nm n).1 = ((rewriteNode nm n).1, false) := by
  cases n with
  | img s alt => rfl
  | text s => rfl
  | a href =>
    cases hd : dictFind nm (normalize_url href) with
    | none =>
      rw [rewriteNode_a_of_none hd]
      dsimp only
      rw [rewriteNode_a_of_none hd]
    | some t =>
      rw [rewriteNode_a_of_some hd]
      by_cases he : href = t
      · rw [if_neg (not_not_intro he)]
        dsimp only
        rw [rewriteNode_a_of_some hd, if_neg (not_not_intro he)]
      · rw [if_pos he]
        dsimp only
        cases hd2 : dictFind nm (normalize_url t) with
        | none => rw [rewriteNode_a_of_none hd2]
        | some t' =>
          rw [rewriteNode_a_of_some hd2]
          have ht : t' = t := hidem _ _ hd _ hd2
          rw [ht, if_neg (not_not_intro rfl)]

lemma rewriteDoc_cons (nm : List ((String × String) × String)) (n : Node)
    (d : Doc) :
    rewriteDoc nm (n :: d) =
      ((rewriteNode nm n).1 :: (rewriteDoc nm d).1,
       (rewriteNode nm n).2 || (rewriteDoc nm d).2) := rfl

lemma rewriteDoc_false_eq {nm : List ((String × String) × String)} :
    ∀ {d : Doc}, (rewriteDoc nm d).2 = false → (rewriteDoc nm d).1 = d := by
  intro d
  induction d with
  | nil => intro _; rfl
  | cons n rest ih =>
    intro h
    rw [rewriteDoc_cons] at h ⊢
    dsimp only at h ⊢
    rcases Bool.or_eq_false_iff.1 h with ⟨h1, h2⟩
    rw [rewriteNode_false_eq h1, ih h2]

lemma rewriteDoc_idem {nm : List ((String × String) × String)}
    (hidem : mapIdem nm) :
    ∀ (d : Doc),
      rewriteDoc nm (rewriteDoc nm d).1 = ((rewriteDoc nm d).1, false) := by
  intro d
  induction d with
  | nil => rfl
  | cons n rest ih =>
    rw [rewriteDoc_cons]
    dsimp only
    rw [rewriteDoc_cons, rewriteNode_idem hidem n, ih]
    rfl

/-- After the link-fix fold, every article with a remote post id has a
body the rewrite no longer changes, provided the remote always answered
200 and the lookup satisfies `mapIdem`. -/
lemma fix_fold_fixpoint (remoteOk : Nat → Doc → Bool)
    (nm : List ((String × String) × String))
    (hok : ∀ p d, remoteOk p d = true) (hidem : mapIdem nm) :
    ∀ (arts : List ArticleRow) (acc : Database × Nat),
      (arts.map (·.id)).Nodup →
      (∀ a ∈ arts, ∀ b ∈ acc.1.articles, b.id = a.id → b = a) →
      (∀ b ∈ acc.1.articles, b.wp_post_id.isSome = true →
        (∃ a ∈ arts, a.id = b.id) ∨ (rewriteDoc nm b.content).2 = false) →
      ∀ b ∈ (arts.foldl (fix_step remoteOk nm) acc).1.articles,
        b.wp_post_id.isSome = true → (rewriteDoc nm b.content).2 = false := by
  intro arts
  induction arts with
  | nil =>
    intro acc _ _ h3 b hb hsome
    rcases h3 b hb hsome with ⟨a, ha, _⟩ | hfix
    · cases ha
    · exact hfix
  | cons art rest ih =>
    intro acc hnd h2 h3
    rw [List.foldl_cons, fix_step_eq]
    have hnd' : (rest.map (·.id)).Nodup := (List.nodup_cons.1 hnd).2
    have hartid : art.id ∉ rest.map (·.id) := (List.nodup_cons.1 hnd).1
    by_cases hc : fixChanged remoteOk nm art = true
    · rw [if_pos hc]
      apply ih _ hnd'
      · intro a ha b hb hid
        obtain ⟨b0, hb0, rfl⟩ := List.mem_map.1 hb
        have hidpres :
            ((if b0.id = art.id
              then { b0 with content := (rewriteDoc nm art.content).1 }
              else b0) : ArticleRow).id = b0.id := by
          by_cases h : b0.id = art.id <;> simp [h]
        by_cases hb0id : b0.id = art.id
        · exfalso
          apply hartid
          have hida : a.id = art.id := by
            rw [hidpres] at hid
            rw [← hid, hb0id]
          exact hida ▸ List.mem_map.2 ⟨a, ha, rfl⟩
        · rw [if_neg hb0id] at hid ⊢
          exact h2 a (List.mem_cons_of_mem _ ha) b0 hb0 hid
      · intro b hb hsome
        obtain ⟨b0, hb0, rfl⟩ := List.mem_map.1 hb
        by_cases hb0id : b0.id = art.id
        · right
          have hb0art : b0 = art :=
            h2 art (List.mem_cons_self art rest) b0 hb0 hb0id
          rw [if_pos hb0id, hb0art]
          dsimp only
          have h := rewriteDoc_idem hidem art.content
          rw [h]
        · rw [if_neg hb0id] at hsome ⊢
          rcases h3 b0 hb0 hsome with ⟨a, ha, haid⟩ | hfix
          · rcases List.mem_cons.1 ha with rfl | ha'
            · exact absurd (haid.symm ▸ rfl) hb0id
            · exact Or.inl ⟨a, ha', haid⟩
          · exact Or.inr hfix
    · rw [if_neg hc]
      apply ih _ hnd'
      · intro a ha b hb hid
        exact h2 a (List.mem_cons_of_mem _ ha) b hb hid
      · intro b hb hsome
        rcases h3 b hb hsome with ⟨a, ha, haid⟩ | hfix
        · rcases List.mem_cons.1 ha with heq | ha'
          · right
            have hbid : b.id = art.id := by
              rw [← heq]
              exact haid.symm
            have hb_art : b = art :=
              h2 art (List.mem_cons_self art rest) b hb hbid
            have hchanged : (rewriteDoc nm art.content).2 = false := by
              unfold fixChanged at hc
              rw [hok] at hc
              simpa using hc
            rw [hb_art]
            exact hchanged
          · exact Or.inl ⟨a, ha', haid⟩
        · exact Or.inr hfix

/-! ## C9 and C5 -/

/-- C9: in `fix_internal_links`, a record whose rewritten body the remote
endpoint rejects (non-200) keeps its locally stored row exactly as it
was and is not counted; the returned total counts precisely the records
whose rewrite changed something and whose remote update returned 200. -/
theorem C9_linkfix_atomic_per_record
    (db : Database) (remoteOk : Nat → Doc → Bool) (art : ArticleRow) (pid : Nat)
    (hn : (db.articles.map (·.id)).Nodup)
    (hmem : art ∈ db.articles) (hpid : art.wp_post_id = some pid)
    (hfail : remoteOk pid
      (rewriteDoc (norm_map (get_url_mapping db)) art.content).1 = false) :
    (fix_internal_links remoteOk db).1.articles.find? (fun a => a.id == art.id)
      = db.articles.find? (fun a => a.id == art.id) ∧
    (fix_internal_links remoteOk db).2 =
      ((db.articles.filter (fun a => a.wp_post_id.isSome)).filter
        (fixChanged remoteOk (norm_map (get_url_mapping db)))).length ∧
    art ∉ (db.articles.filter (fun a => a.wp_post_id.isSome)).filter
        (fixChanged remoteOk (norm_map (get_url_mapping db))) := by
  have hfc : fixChanged remoteOk (norm_map (get_url_mapping db)) art = false := by
    unfold fixChanged
    rw [show art.wp_post_id.getD 0 = pid from by rw [hpid]; rfl, hfail]
    simp
  refine ⟨?_, ?_, ?_⟩
  · rw [fix_internal_links_eq]
    apply fix_fold_find?_unchanged
    intro a ha haid
    have haa : a = art :=
      List.inj_on_of_nodup_map hn (List.mem_of_mem_filter ha) hmem haid
    rw [haa, hfc]
  · rw [fix_internal_links_eq, fix_fold_count]
    exact Nat.zero_add _
  · intro hin
    have hpred := (List.mem_filter.1 hin).2
    rw [hfc] at hpred
    exact Bool.false_ne_true hpred

/-- The two-article store of the link-fix scenarios: article 1 links to
article 2's original URL, and article 1's own permalink happens to be
article 2's original URL. -/
def dbLinks : Database :=
  { urls :=
      [{ id := 1, original_url := "http://a.com/p1", snapshot_url := "s",
         timestamp := "t", status := "fetched", retries := 0 },
       { id := 2, original_url := "http://a.com/p2", snapshot_url := "s",
         timestamp := "t", status := "fetched", retries := 0 }],
    articles :=
      [{ id := 1, url_id := 1, title := "", content := [Node.a "http://a.com/p1"],
         excerpt := "", pub_date := "", category := "", tags := "",
         wp_post_id := some 11, wp_permalink := some "http://a.com/p2",
         status := "published" },
       { id := 2, url_id := 2, title := "", content := [],
         excerpt := "", pub_date := "", category := "", tags := "",
         wp_post_id := some 12, wp_permalink := some "http://b.com/x",
         status := "published" }],
    assets := [], logs := [] }

/-- C9, instantiated: with a remote that always fails, article 1's row is
untouched by the pass. -/
theorem C9_linkfix_atomic_per_record_witness :
    (fix_internal_links (fun _ _ => false) dbLinks).1.articles.find?
        (fun a => a.id == 1) =
      dbLinks.articles.find? (fun a => a.id == 1) ∧
    (fix_internal_links (fun _ _ => false) dbLinks).2 =
      ((dbLinks.articles.filter (fun a => a.wp_post_id.isSome)).filter
        (fixChanged (fun _ _ => false)
          (norm_map (get_url_mapping dbLinks)))).length := by
  have h := C9_linkfix_atomic_per_record dbLinks (fun _ _ => false)
    { id := 1, url_id := 1, title := "", content := [Node.a "http://a.com/p1"],
      excerpt := "", pub_date := "", category := "", tags := "",
      wp_post_id := some 11, wp_permalink := some "http://a.com/p2",
      status := "published" } 11
    (by decide) (by decide) rfl rfl
  exact ⟨h.1, h.2.1⟩

/-- C5: counterexample.  On `dbLinks` a first link-fix run with every
remote update succeeding rewrites article 1's link `http://a.com/p1` to
the canonical permalink `http://a.com/p2` and returns 1.  Because that
permalink itself normalizes to the key of article 2's mapping entry
(bound to `http://b.com/x`), the immediately following second run
rewrites it again and returns 1, not 0 — the pass is not a fixed point. -/
theorem C5_counterexample_second_run_rewrites :
    (fix_internal_links (fun _ _ => true) dbLinks).2 = 1 ∧
    (fix_internal_links (fun _ _ => true)
      (fix_internal_links (fun _ _ => true) dbLinks).1).2 = 1 :=
  ⟨by decide, by decide⟩

/-- C5 (amended): if additionally no permalink bound in the normalized
lookup itself normalizes to a key bound to a different permalink
(`mapIdem` — e.g. whenever the new site's permalinks do not collide with
the source site's normalized URLs), then after a first run in which every
remote update succeeded, an immediately following second run modifies no
record and returns 0. -/
theorem C5_linkfix_fixed_point (remoteOk : Nat → Doc → Bool) (db : Database)
    (hok : ∀ p d, remoteOk p d = true)
    (hn : (db.articles.map (·.id)).Nodup)
    (hidem : mapIdem (norm_map (get_url_mapping db))) :
    fix_internal_links remoteOk (fix_internal_links remoteOk db).1 =
      ((fix_internal_links remoteOk db).1, 0) := by
  have hmap1 : norm_map (get_url_mapping (fix_internal_links remoteOk db).1) =
      norm_map (get_url_mapping db) := by
    rw [fix_internal_links_eq]
    rw [fix_fold_get_url_mapping remoteOk (norm_map (get_url_mapping db))
      (db.articles.filter (fun a => a.wp_post_id.isSome)) (db, 0)]
  have hfixp : ∀ b ∈ (fix_internal_links remoteOk db).1.articles,
      b.wp_post_id.isSome = true →
      (rewriteDoc (norm_map (get_url_mapping db)) b.content).2 = false := by
    rw [fix_internal_links_eq]
    apply fix_fold_fixpoint remoteOk (norm_map (get_url_mapping db)) hok hidem
    · exact (List.Sublist.map (·.id)
        (List.filter_sublist (p := fun a => a.wp_post_id.isSome) db.articles)).nodup hn
    · intro a ha b hb hid
      exact List.inj_on_of_nodup_map hn hb (List.mem_of_mem_filter ha) hid
    · intro b hb hsome
      exact Or.inl ⟨b, List.mem_filter.2 ⟨hb, hsome⟩, rfl⟩
  rw [fix_internal_links_eq remoteOk (fix_internal_links remoteOk db).1, hmap1]
  apply fix_fold_noop
  intro a ha
  have hsome : a.wp_post_id.isSome = true := (List.mem_filter.1 ha).2
  have hmem : a ∈ (fix_internal_links remoteOk db).1.articles :=
    (List.mem_filter.1 ha).1
  unfold fixChanged
  rw [hfixp a hmem hsome]
  simp

/-- A one-article store whose permalink (`http://wp.com/p1`) normalizes to
a key absent from the lookup, so `mapIdem` holds. -/
def dbLinksIdem : Database :=
  { urls :=
      [{ id := 1, original_url := "http://a.com/p1", snapshot_url := "s",
         timestamp := "t", status := "fetched", retries := 0 }],
    articles :=
      [{ id := 1, url_id := 1, title := "", content := [Node.a "http://a.com/p1"],
         excerpt := "", pub_date := "", category := "", tags := "",
         wp_post_id := some 11, wp_permalink := some "http://wp.com/p1",
         status := "published" }],
    assets := [], logs := [] }

lemma dictFind_singleton_some {α β : Type} [BEq α] {p : α × β} {k : α} {t : β}
    (h : dictFind [p] k = some t) : t = p.2 := by
  unfold dictFind at h
  by_cases hp : (p.1 == k) = true
  · simp [hp] at h
    exact h.symm
  · simp [hp] at h

/-- C5 (amended), instantiated on `dbLinksIdem`. -/
theorem C5_linkfix_fixed_point_witness :
    fix_internal_links (fun _ _ => true)
        (fix_internal_links (fun _ _ => true) dbLinksIdem).1 =
      ((fix_internal_links (fun _ _ => true) dbLinksIdem).1, 0) := by
  apply C5_linkfix_fixed_point (fun _ _ => true) dbLinksIdem
    (fun _ _ => rfl) (by decide)
  intro k t h t' h'
  rw [show norm_map (get_url_mapping dbLinksIdem) =
    [((("a.com" : String), ("/p1" : String)), ("http://wp.com/p1" : String))]
    from by decide] at h h'
  rw [dictFind_singleton_some h] at h'
  rw [show dictFind
      [((("a.com" : String), ("/p1" : String)), ("http://wp.com/p1" : String))]
      (normalize_url "http://wp.com/p1") = none from by decide] at h'
  cases h'

/-! ## C10: the pending query's hard-coded bound and the statistics -/

/-- A store with one still-pending row whose retry counter reached 5. -/
def dbStuck : Database :=
  { urls := [{ id := 1, original_url := "http://e.com/a", snapshot_url := "s",
               timestamp := "t", status := "pending", retries := 5 }],
    articles := [], assets := [], logs := [] }

/-- C10: every row `get_pending_urls` returns has status "pending" and a
retry counter strictly below the literal 5; a row whose counter has
reached 5 while still "pending" is never returned (with unique ids), yet
the statistics query — grouping solely by status — still counts it among
the pending rows. -/
theorem C10_pending_query_bound (db : Database) (limit : Nat) :
    (∀ t ∈ get_pending_urls db limit, ∃ r ∈ db.urls,
      r.id = t.1 ∧ r.original_url = t.2.1 ∧ r.snapshot_url = t.2.2 ∧
      r.status = "pending" ∧ r.retries < 5) ∧
    (∀ r ∈ db.urls, r.status = "pending" → 5 ≤ r.retries →
      ((db.urls.map (·.id)).Nodup → ∀ t ∈ get_pending_urls db limit, t.1 ≠ r.id) ∧
      r ∈ db.urls.filter (fun x => x.status == "pending") ∧
      0 < urls_status_count db "pending") := by
  constructor
  · intro t ht
    obtain ⟨r, hr, rfl⟩ := List.mem_map.1 ht
    obtain ⟨hrf, hpred⟩ := List.mem_filter.1 (List.mem_of_mem_take hr)
    simp only [Bool.and_eq_true, beq_iff_eq, decide_eq_true_eq] at hpred
    exact ⟨r, hrf, rfl, rfl, rfl, hpred.1, hpred.2⟩
  · intro r hr hst hret
    have hmem : r ∈ db.urls.filter (fun x => x.status == "pending") :=
      List.mem_filter.2 ⟨hr, beq_iff_eq.2 hst⟩
    refine ⟨?_, hmem, ?_⟩
    · intro hn t ht hid
      obtain ⟨x, hx, rfl⟩ := List.mem_map.1 ht
      obtain ⟨hxf, hxpred⟩ := List.mem_filter.1 (List.mem_of_mem_take hx)
      have hxr : x = r := List.inj_on_of_nodup_map hn hxf hr hid
      simp only [Bool.and_eq_true, decide_eq_true_eq] at hxpred
      rw [hxr] at hxpred
      omega
    · unfold urls_status_count
      exact List.length_pos.2 (fun he => List.not_mem_nil r (he ▸ hmem))

/-- C10, instantiated: a pending row with 5 retries is not returned but is
counted as pending by the statistics. -/
theorem C10_pending_query_bound_witness :
    get_pending_urls dbStuck 100 = [] ∧
    0 < urls_status_count dbStuck "pending" := by
  have h := (C10_pending_query_bound dbStuck 100).2
    { id := 1, original_url := "http://e.com/a", snapshot_url := "s",
      timestamp := "t", status := "pending", retries := 5 }
    (by decide) rfl (by decide)
  exact ⟨by decide, h.2.2⟩

/-! ## Pipeline-step preservation lemmas (C6, C7, C8) -/

lemma map_proj_of_pointwise {α β : Type} (l : List α) (g : α → α) (f : α → β)
    (hg : ∀ r, f (g r) = f r) : (l.map g).map f = l.map f := by
  rw [List.map_map]
  exact List.map_congr_left (fun r _ => hg r)

lemma nodup_map_append_singleton {α β : Type} {l : List α} {x : α} {f : α → β}
    (hn : (l.map f).Nodup) (hx : f x ∉ l.map f) : ((l ++ [x]).map f).Nodup := by
  rw [List.map_append]
  refine List.nodup_append.2 ⟨hn, List.nodup_singleton _, ?_⟩
  intro a ha hb
  rw [List.map_singleton, List.mem_singleton] at hb
  exact hx (hb ▸ ha)

lemma log_articles (db : Database) (l m : String) :
    (db.log l m).articles = db.articles := rfl

lemma log_inv {db : Database} (l m : String) (h : Inv db) : Inv (db.log l m) :=
  ⟨h.urls_id_nodup, h.articles_id_nodup, h.originals_nodup⟩

lemma add_url_ok (db : Database) (o s t : String) :
    UrlsMono db (add_url db o s t) ∧
    (add_url db o s t).articles = db.articles ∧
    (Inv db → Inv (add_url db o s t)) := by
  by_cases h : ∃ r ∈ db.urls, r.original_url = o
  · rw [add_url_of_mem s t h]
    exact ⟨listMono_refl urlRowEvol_refl _, rfl, id⟩
  · push_neg at h
    rw [add_url_of_not_mem s t h]
    refine ⟨listMono_append urlRowEvol_refl _ _, rfl, fun hinv => ?_⟩
    refine ⟨?_, hinv.articles_id_nodup, ?_⟩
    · exact nodup_map_append_singleton hinv.urls_id_nodup (nextId_not_mem _)
    · apply nodup_map_append_singleton hinv.originals_nodup
      intro hmem
      obtain ⟨r, hr, hro⟩ := List.mem_map.1 hmem
      exact h r hr hro

lemma discover_fold_ok (rows : List CdxItem) :
    ∀ (acc : Database × Nat),
      UrlsMono acc.1 (rows.foldl discover_step acc).1 ∧
      (rows.foldl discover_step acc).1.articles = acc.1.articles ∧
      (Inv acc.1 → Inv (rows.foldl discover_step acc).1) := by
  induction rows with
  | nil =>
    intro acc
    exact ⟨listMono_refl urlRowEvol_refl _, rfl, id⟩
  | cons i rest ih =>
    intro acc
    rw [List.foldl_cons]
    unfold discover_step
    by_cases hx : excluded i.original
    · rw [if_pos hx]
      exact ih acc
    · rw [if_neg hx]
      obtain ⟨h1, h2, h3⟩ := ih (add_url acc.1 i.original
        ("https://web.archive.org/web/" ++ i.timestamp ++ "id_/" ++ i.original)
        i.timestamp, acc.2 + 1)
      obtain ⟨g1, g2, g3⟩ := add_url_ok acc.1 i.original
        ("https://web.archive.org/web/" ++ i.timestamp ++ "id_/" ++ i.original)
        i.timestamp
      exact ⟨listMono_trans urlRowEvol_trans g1 h1, h2.trans g2,
        fun hi => h3 (g3 hi)⟩

lemma discover_urls_ok (db : Database) (domain : String) (rows : List CdxItem) :
    UrlsMono db (discover_urls db domain rows).1 ∧
    (discover_urls db domain rows).1.articles = db.articles ∧
    (Inv db → Inv (discover_urls db domain rows).1) := by
  obtain ⟨h1, h2, h3⟩ := discover_fold_ok rows (db, 0)
  refine ⟨?_, ?_, fun hinv => log_inv _ _ (h3 hinv)⟩
  · show ListMono UrlRowEvol db.urls ((rows.foldl discover_step (db, 0)).1.log
      "info" _).urls
    rw [log_urls]
    exact h1
  · show ((rows.foldl discover_step (db, 0)).1.log "info" _).articles = db.articles
    rw [log_articles]
    exact h2

/-- Row projections any fetch-loop run preserves. -/
def RowsPreserve (g : UrlRow → UrlRow) : Prop :=
  ∀ r, (g r).id = r.id ∧ (g r).original_url = r.original_url

lemma fetch_page_ok (oracle : Nat → FetchOutcome) (db : Database) (uid : Nat)
    (hpend : ∀ r ∈ db.urls, r.id = uid → r.status = "pending") :
    UrlsMono db (fetch_page oracle 5 db uid).1 ∧
    (fetch_page oracle 5 db uid).1.articles = db.articles ∧
    (fetch_page oracle 5 db uid).1.assets = db.assets ∧
    ∃ g, (fetch_page oracle 5 db uid).1.urls = db.urls.map g ∧
      RowsPreserve g ∧ (∀ r, r.id ≠ uid → g r = r) := by
  obtain ⟨g, hg, hfg⟩ := fetch_loop_shape oracle 5 uid (List.range' 1 5) db
  have hg' : (fetch_page oracle 5 db uid).1.urls = db.urls.map g := hg
  refine ⟨⟨db.urls.map g, [], by rw [hg', List.append_nil], ?_⟩,
    fetch_loop_articles oracle 5 uid (List.range' 1 5) db,
    fetch_loop_assets oracle 5 uid (List.range' 1 5) db,
    g, hg', fun r => ⟨(hfg.2 r).1, (hfg.2 r).2.1⟩, hfg.1⟩
  apply List.forall₂_map_right_iff.2
  apply List.forall₂_same.2
  intro r hr
  obtain ⟨hid, ho, hs, ht, hret, hst⟩ := hfg.2 r
  by_cases hru : r.id = uid
  · refine ⟨hid, ho, hs, ht, hret, ?_⟩
    rcases hst with h | h | h
    · exact Or.inl h
    · exact Or.inr ⟨hpend r hr hru, Or.inl h⟩
    · exact Or.inr ⟨hpend r hr hru, Or.inr h⟩
  · rw [hfg.1 r hru]
    exact urlRowEvol_refl r

lemma fetch_fold_ok (oracles : Nat → Nat → FetchOutcome) :
    ∀ (items : List (Nat × String × String)) (db : Database),
      (items.map (·.1)).Nodup →
      (∀ i ∈ items, ∀ r ∈ db.urls, r.id = i.1 → r.status = "pending") →
      UrlsMono db
        (items.foldl (fun d i => (fetch_page (oracles i.1) 5 d i.1).1) db) ∧
      (items.foldl (fun d i => (fetch_page (oracles i.1) 5 d i.1).1) db).articles
        = db.articles ∧
      ∃ g, (items.foldl (fun d i => (fetch_page (oracles i.1) 5 d i.1).1)
          db).urls = db.urls.map g ∧ RowsPreserve g := by
  intro items
  induction items with
  | nil =>
    intro db _ _
    exact ⟨listMono_refl urlRowEvol_refl _, rfl,
      id, (List.map_id db.urls).symm, fun r => ⟨rfl, rfl⟩⟩
  | cons i rest ih =>
    intro db hnd hpend
    obtain ⟨m1, a1, _, g1, hg1, hp1, hid1⟩ :=
      fetch_page_ok (oracles i.1) db i.1
        (fun r hr hid => hpend i (List.mem_cons_self i rest) r hr hid)
    have hnd' : (rest.map (·.1)).Nodup := (List.nodup_cons.1 hnd).2
    have hi1 : i.1 ∉ rest.map (·.1) := (List.nodup_cons.1 hnd).1
    have hpend' : ∀ j ∈ rest, ∀ r ∈ (fetch_page (oracles i.1) 5 db i.1).1.urls,
        r.id = j.1 → r.status = "pending" := by
      intro j hj r hr hid
      rw [hg1] at hr
      obtain ⟨r0, hr0, rfl⟩ := List.mem_map.1 hr
      have hne : r0.id ≠ i.1 := by
        intro hr0i
        apply hi1
        rw [(hp1 r0).1] at hid
        have hji : j.1 = i.1 := by rw [← hid, hr0i]
        rw [← hji]
        exact List.mem_map.2 ⟨j, hj, rfl⟩
      rw [hid1 r0 hne] at hid ⊢
      exact hpend j (List.mem_cons_of_mem _ hj) r0 hr0 hid
    obtain ⟨m2, a2, g2, hg2, hp2⟩ := ih _ hnd' hpend'
    rw [List.foldl_cons]
    refine ⟨listMono_trans urlRowEvol_trans m1 m2, a2.trans a1,
      g2 ∘ g1, ?_, fun r => ?_⟩
    · rw [hg2, hg1, List.map_map]
    · exact ⟨((hp2 (g1 r)).1).trans (hp1 r).1,
        ((hp2 (g1 r)).2).trans (hp1 r).2⟩

lemma insert_asset_fields (db : Database) (aid : Nat) (u a : String) :
    (insert_asset db aid u a).urls = db.urls ∧
    (insert_asset db aid u a).articles = db.articles := ⟨rfl, rfl⟩

lemma insert_fold_fields (aid : Nat) :
    ∀ (imgs : List (String × String)) (db : Database),
      (imgs.foldl (fun d img => insert_asset d aid img.1 img.2) db).urls
        = db.urls ∧
      (imgs.foldl (fun d img => insert_asset d aid img.1 img.2) db).articles
        = db.articles := by
  intro imgs
  induction imgs with
  | nil => intro db; exact ⟨rfl, rfl⟩
  | cons img rest ih =>
    intro db
    rw [List.foldl_cons]
    exact ⟨(ih _).1.trans rfl, (ih _).2.trans rfl⟩

lemma process_page_ok (db : Database) (uid : Nat) (ex : Extracted) :
    (process_page db uid ex).1.urls = db.urls ∧
    ArticlesMono db (process_page db uid ex).1 ∧
    (Inv db → Inv (process_page db uid ex).1) := by
  unfold process_page
  dsimp only
  obtain ⟨hu, ha⟩ := insert_fold_fields (save_article db uid ex.title ex.content
    ex.excerpt ex.pub_date ex.category ex.tags).2 ex.images
    (save_article db uid ex.title ex.content ex.excerpt ex.pub_date ex.category
      ex.tags).1
  refine ⟨hu.trans rfl, ?_, fun hinv => ?_⟩
  · show ListMono ArticleEvol db.articles _
    rw [ha]
    exact listMono_append articleEvol_refl _ _
  · refine ⟨?_, ?_, ?_⟩
    · rw [hu]
      exact hinv.urls_id_nodup
    · rw [ha]
      exact nodup_map_append_singleton hinv.articles_id_nodup (nextId_not_mem _)
    · rw [hu]
      exact hinv.originals_nodup

lemma process_fold_ok (extract : Nat → String → Extracted) :
    ∀ (results : List (Nat × Option String)) (db : Database),
      (results.foldl (fun d item =>
        match item.2 with
        | some html => (process_page d item.1 (extract item.1 html)).1
        | none => d) db).urls = db.urls ∧
      ArticlesMono db (results.foldl (fun d item =>
        match item.2 with
        | some html => (process_page d item.1 (extract item.1 html)).1
        | none => d) db) ∧
      (Inv db → Inv (results.foldl (fun d item =>
        match item.2 with
        | some html => (process_page d item.1 (extract item.1 html)).1
        | none => d) db)) := by
  intro results
  induction results with
  | nil =>
    intro db
    exact ⟨rfl, listMono_refl articleEvol_refl _, id⟩
  | cons item rest ih =>
    intro db
    rw [List.foldl_cons]
    cases ho : item.2 with
    | none =>
      dsimp only
      exact ih db
    | some html =>
      dsimp only
      obtain ⟨u1, a1, i1⟩ := process_page_ok db item.1 (extract item.1 html)
      obtain ⟨u2, a2, i2⟩ := ih (process_page db item.1 (extract item.1 html)).1
      exact ⟨u2.trans u1, listMono_trans articleEvol_trans a1 a2,
        fun hinv => i2 (i1 hinv)⟩

lemma fetch_pair_fold_fst (oracles : Nat → Nat → FetchOutcome) :
    ∀ (items : List (Nat × String × String)) (db : Database)
      (l : List (Nat × Option String)),
      (items.foldl (fun (acc : Database × List (Nat × Option String)) item =>
        let r := fetch_page (oracles item.1) 5 acc.1 item.1
        (r.1, acc.2 ++ [(item.1, r.2)])) (db, l)).1 =
      items.foldl (fun d i => (fetch_page (oracles i.1) 5 d i.1).1) db := by
  intro items
  induction items with
  | nil => intro db l; rfl
  | cons i rest ih =>
    intro db l
    rw [List.foldl_cons, List.foldl_cons]
    exact ih _ _

lemma run_fetching_eq (oracles : Nat → Nat → FetchOutcome)
    (extract : Nat → String → Extracted) (n : Nat) (db : Database) :
    run_fetching oracles extract n db =
      ((get_pending_urls db n).foldl
        (fun (acc : Database × List (Nat × Option String)) item =>
          let r := fetch_page (oracles item.1) 5 acc.1 item.1
          (r.1, acc.2 ++ [(item.1, r.2)])) (db, [])).2.foldl
        (fun d item =>
          match item.2 with
          | some html => (process_page d item.1 (extract item.1 html)).1
          | none => d)
        ((get_pending_urls db n).foldl
          (fun (acc : Database × List (Nat × Option String)) item =>
            let r := fetch_page (oracles item.1) 5 acc.1 item.1
            (r.1, acc.2 ++ [(item.1, r.2)])) (db, [])).1 := rfl

lemma get_pending_ids_nodup {db : Database} (hinv : Inv db) (n : Nat) :
    ((get_pending_urls db n).map (·.1)).Nodup := by
  unfold get_pending_urls
  rw [List.map_map]
  have hsub : ((db.urls.filter
      (fun r => r.status == "pending" && decide (r.retries < 5))).take n).Sublist
      db.urls :=
    (List.take_sublist _ _).trans (List.filter_sublist _)
  exact (List.Sublist.map (fun r => r.id) hsub).nodup hinv.urls_id_nodup

lemma get_pending_rows_pending {db : Database} (hinv : Inv db) (n : Nat) :
    ∀ i ∈ get_pending_urls db n, ∀ r ∈ db.urls, r.id = i.1 →
      r.status = "pending" := by
  intro i hi r hr hid
  obtain ⟨x, hx, rfl⟩ := List.mem_map.1 hi
  obtain ⟨hxf, hxpred⟩ := List.mem_filter.1 (List.mem_of_mem_take hx)
  have hrx : r = x := List.inj_on_of_nodup_map hinv.urls_id_nodup hr hxf hid
  simp only [Bool.and_eq_true, beq_iff_eq] at hxpred
  rw [hrx]
  exact hxpred.1

lemma run_fetching_ok (oracles : Nat → Nat → FetchOutcome)
    (extract : Nat → String → Extracted) (n : Nat) (db : Database)
    (hinv : Inv db) :
    UrlsMono db (run_fetching oracles extract n db) ∧
    ArticlesMono db (run_fetching oracles extract n db) ∧
    Inv (run_fetching oracles extract n db) := by
  rw [run_fetching_eq, fetch_pair_fold_fst]
  obtain ⟨mu, ma, g, hg, hpres⟩ := fetch_fold_ok oracles (get_pending_urls db n)
    db (get_pending_ids_nodup hinv n) (get_pending_rows_pending hinv n)
  have hinvF : Inv ((get_pending_urls db n).foldl
      (fun d i => (fetch_page (oracles i.1) 5 d i.1).1) db) := by
    refine ⟨?_, ?_, ?_⟩
    · rw [hg, map_proj_of_pointwise _ g _ (fun r => (hpres r).1)]
      exact hinv.urls_id_nodup
    · rw [ma]
      exact hinv.articles_id_nodup
    · rw [hg, map_proj_of_pointwise _ g _ (fun r => (hpres r).2)]
      exact hinv.originals_nodup
  obtain ⟨pu, pa, pi⟩ := process_fold_ok extract
    ((get_pending_urls db n).foldl
      (fun (acc : Database × List (Nat × Option String)) item =>
        let r := fetch_page (oracles item.1) 5 acc.1 item.1
        (r.1, acc.2 ++ [(item.1, r.2)])) (db, [])).2
    ((get_pending_urls db n).foldl
      (fun d i => (fetch_page (oracles i.1) 5 d i.1).1) db)
  refine ⟨?_, ?_, pi hinvF⟩
  · refine listMono_trans urlRowEvol_trans mu ?_
    show ListMono UrlRowEvol _ _
    rw [pu]
    exact listMono_refl urlRowEvol_refl _
  · refine listMono_trans articleEvol_trans ?_ pa
    show ListMono ArticleEvol db.articles _
    rw [ma]
    exact listMono_refl articleEvol_refl _

lemma publishedG_id (aid pid : Nat) (link : String) (a : ArticleRow) :
    (publishedG aid pid link a).id = a.id := by
  unfold publishedG
  by_cases h : a.id = aid <;> simp [h]

lemma publishedG_url_id (aid pid : Nat) (link : String) (a : ArticleRow) :
    (publishedG aid pid link a).url_id = a.url_id := by
  unfold publishedG
  by_cases h : a.id = aid <;> simp [h]

lemma publish_fold_ok (net : PublishNet) (cat : Nat) :
    ∀ (cands : List Nat) (db : Database),
      cands.Nodup →
      (∀ c ∈ cands, ∀ a ∈ db.articles, a.id = c → a.wp_post_id = none) →
      (cands.foldl (fun d aid => (publish_article net cat d aid).1) db).urls
        = db.urls ∧
      ArticlesMono db
        (cands.foldl (fun d aid => (publish_article net cat d aid).1) db) ∧
      (Inv db → Inv
        (cands.foldl (fun d aid => (publish_article net cat d aid).1) db)) := by
  intro cands
  induction cands with
  | nil =>
    intro db _ _
    exact ⟨rfl, listMono_refl articleEvol_refl _, id⟩
  | cons c rest ih =>
    intro db hnd hnone
    rw [List.foldl_cons]
    have hndr : rest.Nodup := (List.nodup_cons.1 hnd).2
    have hcr : c ∉ rest := (List.nodup_cons.1 hnd).1
    have hurls1 := publish_article_urls net cat db c
    rcases publish_article_articles_cases net cat db c with harts | ⟨pid, link, harts⟩
    · obtain ⟨u2, a2, i2⟩ := ih (publish_article net cat db c).1
        hndr (by
          intro j hj a ha hid
          rw [harts] at ha
          exact hnone j (List.mem_cons_of_mem _ hj) a ha hid)
      refine ⟨u2.trans hurls1, ?_, fun hinv => i2 ⟨?_, ?_, ?_⟩⟩
      · refine listMono_trans articleEvol_trans ?_ a2
        show ListMono ArticleEvol db.articles _
        rw [harts]
        exact listMono_refl articleEvol_refl _
      · rw [hurls1]; exact hinv.urls_id_nodup
      · rw [harts]; exact hinv.articles_id_nodup
      · rw [hurls1]; exact hinv.originals_nodup
    · obtain ⟨u2, a2, i2⟩ := ih (publish_article net cat db c).1
        hndr (by
          intro j hj a ha hid
          rw [harts] at ha
          obtain ⟨a0, ha0, rfl⟩ := List.mem_map.1 ha
          rw [publishedG_id] at hid
          have hne : a0.id ≠ c := by
            intro hac
            exact hcr (hac ▸ hid ▸ hj)
          rw [show publishedG c pid link a0 = a0 from by
            unfold publishedG; rw [if_neg hne]]
          exact hnone j (List.mem_cons_of_mem _ hj) a0 ha0 hid)
      refine ⟨u2.trans hurls1, ?_, fun hinv => i2 ⟨?_, ?_, ?_⟩⟩
      · refine listMono_trans articleEvol_trans ?_ a2
        show ListMono ArticleEvol db.articles _
        rw [harts]
        apply listMono_map
        intro a ha
        refine ⟨publishedG_id c pid link a, publishedG_url_id c pid link a, ?_⟩
        intro p hp
        by_cases hac : a.id = c
        · rw [hnone c (List.mem_cons_self c rest) a ha hac] at hp
          cases hp
        · rw [show publishedG c pid link a = a from by
            unfold publishedG; rw [if_neg hac]]
          exact hp
      · rw [hurls1]; exact hinv.urls_id_nodup
      · rw [harts, map_proj_of_pointwise _ _ _ (publishedG_id c pid link)]
        exact hinv.articles_id_nodup
      · rw [hurls1]; exact hinv.originals_nodup

lemma run_publishing_ok (net : PublishNet) (cat n : Nat) (db : Database)
    (hinv : Inv db) :
    (run_publishing net cat n db).urls = db.urls ∧
    ArticlesMono db (run_publishing net cat n db) ∧
    Inv (run_publishing net cat n db) := by
  have hnd : (publish_candidates db n).Nodup := by
    unfold publish_candidates
    have hsub : ((db.articles.filter (fun a => a.wp_post_id.isNone)).take n).Sublist
        db.articles :=
      (List.take_sublist _ _).trans (List.filter_sublist _)
    exact (List.Sublist.map (·.id) hsub).nodup hinv.articles_id_nodup
  have hnone : ∀ c ∈ publish_candidates db n, ∀ a ∈ db.articles, a.id = c →
      a.wp_post_id = none := by
    intro c hc a ha hid
    obtain ⟨x, hx, rfl⟩ := List.mem_map.1 hc
    obtain ⟨hxf, hxpred⟩ := List.mem_filter.1 (List.mem_of_mem_take hx)
    have hax : a = x := List.inj_on_of_nodup_map hinv.articles_id_nodup ha hxf hid
    rw [hax]
    exact Option.isNone_iff_eq_none.1 hxpred
  obtain ⟨h1, h2, h3⟩ := publish_fold_ok net cat (publish_candidates db n) db
    hnd hnone
  exact ⟨h1, h2, h3 hinv⟩

lemma fix_fold_mono_inv (remoteOk : Nat → Doc → Bool)
    (nm : List ((String × String) × String)) :
    ∀ (arts : List ArticleRow) (acc : Database × Nat),
      ArticlesMono acc.1 (arts.foldl (fix_step remoteOk nm) acc).1 ∧
      (Inv acc.1 → Inv (arts.foldl (fix_step remoteOk nm) acc).1) := by
  intro arts
  induction arts with
  | nil =>
    intro acc
    exact ⟨listMono_refl articleEvol_refl _, id⟩
  | cons art rest ih =>
    intro acc
    rw [List.foldl_cons, fix_step_eq]
    by_cases h : fixChanged remoteOk nm art = true
    · rw [if_pos h]
      obtain ⟨a2, i2⟩ := ih ({ acc.1 with
        articles := acc.1.articles.map (fun a =>
          if a.id = art.id
          then { a with content := (rewriteDoc nm art.content).1 } else a) },
        acc.2 + 1)
      have hidp : ∀ a : ArticleRow,
          ((if a.id = art.id
            then { a with content := (rewriteDoc nm art.content).1 }
            else a) : ArticleRow).id = a.id := by
        intro a
        by_cases ha : a.id = art.id <;> simp [ha]
      refine ⟨listMono_trans articleEvol_trans ?_ a2, fun hinv => i2 ⟨?_, ?_, ?_⟩⟩
      · apply listMono_map
        intro a _
        refine ⟨hidp a, ?_, ?_⟩
        · by_cases ha : a.id = art.id <;> simp [ha]
        · intro p hp
          by_cases ha : a.id = art.id <;> simp [ha] <;> exact hp
      · exact hinv.urls_id_nodup
      · have hh := hinv.articles_id_nodup
        rw [← map_proj_of_pointwise acc.1.articles
          (fun a => if a.id = art.id
            then { a with content := (rewriteDoc nm art.content).1 } else a)
          (fun a => a.id) hidp] at hh
        exact hh
      · exact hinv.originals_nodup
    · rw [if_neg h]
      exact ih acc

lemma fix_internal_links_ok (remoteOk : Nat → Doc → Bool) (db : Database) :
    (fix_internal_links remoteOk db).1.urls = db.urls ∧
    ArticlesMono db (fix_internal_links remoteOk db).1 ∧
    (Inv db → Inv (fix_internal_links remoteOk db).1) := by
  rw [fix_internal_links_eq]
  obtain ⟨h2, h3⟩ := fix_fold_mono_inv remoteOk (norm_map (get_url_mapping db))
    (db.articles.filter (fun a => a.wp_post_id.isSome)) (db, 0)
  exact ⟨fix_fold_urls _ _ _ _, h2, h3⟩

/-- Every pipeline phase evolves the url table and the article table
monotonically and preserves the uniqueness invariants. -/
lemma pstep_ok {db db' : Database} (h : PStep db db') (hinv : Inv db) :
    UrlsMono db db' ∧ ArticlesMono db db' ∧ Inv db' := by
  cases h with
  | discovery domain rows db =>
    obtain ⟨h1, h2, h3⟩ := discover_urls_ok db domain rows
    refine ⟨h1, ?_, h3 hinv⟩
    show ListMono ArticleEvol db.articles _
    rw [h2]
    exact listMono_refl articleEvol_refl _
  | fetching oracles extract n db =>
    exact run_fetching_ok oracles extract n db hinv
  | publishing net cat n db =>
    obtain ⟨h1, h2, h3⟩ := run_publishing_ok net cat n db hinv
    refine ⟨?_, h2, h3⟩
    show ListMono UrlRowEvol db.urls _
    rw [h1]
    exact listMono_refl urlRowEvol_refl _
  | linkfixing remoteOk db =>
    obtain ⟨h1, h2, h3⟩ := fix_internal_links_ok remoteOk db
    refine ⟨?_, h2, h3 hinv⟩
    show ListMono UrlRowEvol db.urls _
    rw [h1]
    exact listMono_refl urlRowEvol_refl _

/-- Any finite sequence of pipeline phases evolves the store
monotonically and preserves the uniqueness invariants. -/
lemma psteps_ok {db db' : Database} (h : PSteps db db') (hinv : Inv db) :
    UrlsMono db db' ∧ ArticlesMono db db' ∧ Inv db' := by
  induction h with
  | refl =>
    exact ⟨listMono_refl urlRowEvol_refl _, listMono_refl articleEvol_refl _, hinv⟩
  | tail _ hstep ih =>
    obtain ⟨u1, a1, i1⟩ := ih
    obtain ⟨u2, a2, i2⟩ := pstep_ok hstep i1
    exact ⟨listMono_trans urlRowEvol_trans u1 u2,
      listMono_trans articleEvol_trans a1 a2, i2⟩

/-! ## C7, C6, C8 -/

/-- C7: across every sequence of pipeline phases, a work item keeps its
identity, its retry counter never decreases, and its status either stays
what it was or moves from "pending" to "fetched"/"failed" — in particular
it never transitions fetched→pending or failed→pending. -/
theorem C7_url_status_monotonic (db db' : Database) (hinv : Inv db)
    (hsteps : PSteps db db') :
    ∀ r ∈ db.urls, ∃ r' ∈ db'.urls, r'.id = r.id ∧
      r'.original_url = r.original_url ∧ r.retries ≤ r'.retries ∧
      (r'.status = r.status ∨
        (r.status = "pending" ∧
          (r'.status = "fetched" ∨ r'.status = "failed"))) := by
  obtain ⟨⟨old, new, heq, hf⟩, _, _⟩ := psteps_ok hsteps hinv
  intro r hr
  obtain ⟨r', hr', hev⟩ := forall₂_mem_extract hf r hr
  obtain ⟨h1, h2, _, _, h5, h6⟩ := hev
  exact ⟨r', by rw [heq]; exact List.mem_append_left _ hr', h1, h2, h5, h6⟩

/-- The trivial extraction result, used to instantiate fetch phases. -/
def exEmpty : Extracted :=
  { title := "", content := [], excerpt := "", pub_date := "", category := "",
    tags := "", images := [] }

/-- C7, instantiated: one fetch phase over the one-row store, evaluated at
its single pending row. -/
theorem C7_url_status_monotonic_witness :
    ∃ r' ∈ (run_fetching (fun _ _ => FetchOutcome.exn "x")
        (fun _ _ => exEmpty) 10 dbC1).urls, r'.id = 1 ∧
      r'.original_url = "http://e.com/a" ∧ (0 : Nat) ≤ r'.retries ∧
      (r'.status = "pending" ∨
        ((("pending" : String) = "pending") ∧
          (r'.status = "fetched" ∨ r'.status = "failed"))) :=
  C7_url_status_monotonic dbC1 _ ⟨by decide, by decide, by decide⟩
    (Relation.ReflTransGen.single
      (PStep.fetching (fun _ _ => FetchOutcome.exn "x") (fun _ _ => exEmpty)
        10 dbC1))
    { id := 1, original_url := "http://e.com/a", snapshot_url := "s",
      timestamp := "t", status := "pending", retries := 0 }
    (by decide)

/-- C6: when the posts endpoint answers with anything other than 201,
`publish_article` returns false and leaves the articles table unchanged —
so the article's remote post id and permalink stay unset and its status
stays "draft" — and `run_publishing`'s candidate query returns the same
ids, keeping the article eligible for the next run.  Conversely, once an
article's remote post id is set, every later sequence of pipeline phases
preserves it exactly. -/
theorem C6_publish_failure_keeps_eligibility
    (net : PublishNet) (cat : Nat) (db : Database) (aid limit : Nat)
    (hfail : ∀ pd, net.create pd = none) :
    ((publish_article net cat db aid).2.1 = false ∧
     (publish_article net cat db aid).1.articles = db.articles ∧
     publish_candidates (publish_article net cat db aid).1 limit =
       publish_candidates db limit) ∧
    (∀ db1 db2, Inv db1 → PSteps db1 db2 →
      ∀ a ∈ db1.articles, ∀ p, a.wp_post_id = some p →
        ∃ a' ∈ db2.articles, a'.id = a.id ∧ a'.wp_post_id = some p) := by
  constructor
  · have hfa : (publish_article net cat db aid).2.1 = false ∧
        (publish_article net cat db aid).1.articles = db.articles := by
      unfold publish_article
      cases hf : db.articles.find? (fun a => a.id == aid) with
      | none => exact ⟨rfl, rfl⟩
      | some art =>
        dsimp only
        rw [hfail]
        dsimp only
        refine ⟨rfl, ?_⟩
        rw [log_articles]
        exact asset_fold_articles net _ _
    refine ⟨hfa.1, hfa.2, ?_⟩
    unfold publish_candidates
    rw [hfa.2]
  · intro db1 db2 hinv hsteps a ha p hp
    obtain ⟨_, ⟨old, new, heq, hf⟩, _⟩ := psteps_ok hsteps hinv
    obtain ⟨a', ha', hev⟩ := forall₂_mem_extract hf a ha
    exact ⟨a', by rw [heq]; exact List.mem_append_left _ ha', hev.1,
      hev.2.2 p hp⟩

/-- A publisher whose create endpoint never answers 201. -/
def netFail : PublishNet :=
  { upload := fun _ _ => none, create := fun _ => none }

/-- A store with one draft article awaiting publication. -/
def dbDraft : Database :=
  { urls := [{ id := 1, original_url := "http://e.com/post/p", snapshot_url := "s",
               timestamp := "t", status := "fetched", retries := 0 }],
    articles := [{ id := 1, url_id := 1, title := "T", content := [],
                   excerpt := "E", pub_date := "D", category := "c", tags := "",
                   wp_post_id := none, wp_permalink := none, status := "draft" }],
    assets := [], logs := [] }

/-- C6, instantiated: a failed create on the draft store. -/
theorem C6_publish_failure_keeps_eligibility_witness :
    (publish_article netFail 1 dbDraft 1).2.1 = false ∧
    (publish_article netFail 1 dbDraft 1).1.articles = dbDraft.articles ∧
    publish_candidates (publish_article netFail 1 dbDraft 1).1 100 =
      publish_candidates dbDraft 100 := by
  have h := C6_publish_failure_keeps_eligibility netFail 1 dbDraft 1 100
    (fun _ => rfl)
  exact h.1

/-- C8: `add_url` with an already-known original_url leaves the store
completely unchanged (the UNIQUE violation is absorbed; `add_url` is a
total function, so no error propagates), and the at-most-one-row-per-
original_url invariant is preserved by every sequence of pipeline
phases. -/
theorem C8_unique_by_source_url (db : Database) (o s t : String) :
    ((∃ r ∈ db.urls, r.original_url = o) → add_url db o s t = db) ∧
    (∀ db2, Inv db → PSteps db db2 →
      (db2.urls.map (·.original_url)).Nodup) := by
  refine ⟨fun h => add_url_of_mem s t h, fun db2 hinv hsteps => ?_⟩
  exact (psteps_ok hsteps hinv).2.2.originals_nodup

/-- C8, instantiated: re-adding the known URL is a no-op, and a discovery
phase preserves uniqueness. -/
theorem C8_unique_by_source_url_witness :
    add_url dbC1 "http://e.com/a" "x" "y" = dbC1 ∧
    ((discover_urls dbC1 "e.com" rowsC2).1.urls.map (·.original_url)).Nodup := by
  constructor
  · exact (C8_unique_by_source_url dbC1 "http://e.com/a" "x" "y").1 (by decide)
  · exact (C8_unique_by_source_url dbC1 "http://e.com/a" "x" "y").2 _
      ⟨by decide, by decide, by decide⟩
      (Relation.ReflTransGen.single (PStep.discovery "e.com" rowsC2 dbC1))

end Wayback
